import Mathlib

/-!
# error.c : chained error values

A shallow embedding of `src/error.c` (built with `error_unittest` defined, so
that the allocation counter `error_mem_usage` exists) and theorems about it.

Modelling conventions.

* The C heap is explicit state (`Heap`).  An allocation is named by the
  natural number the allocator handed out (`Ptr`); the null pointer is
  `Option.none`.  Node allocations and character buffers live in two maps;
  `free` removes the entry, and reading a missing entry is undefined behaviour,
  which the model reports as `none`.
* A byte of character storage is a `Cell`: indeterminate (fresh `malloc`), the
  terminating zero byte, or a character.  A `Text` is the content of a C
  string, the characters before its terminating zero byte.
* `snprintf`/`vsnprintf` are modelled on the text they render: they return its
  length and store at most `size - 1` characters followed by a zero byte.
* `error_new_` hands one `va_list` to two `vsnprintf` calls; the text each of the
  two calls renders is a parameter of its own.
* `sizeof(error_t)` depends on the ABI and is a parameter (`S`) of the
  operations that use it.
* Lengths and the counter are unbounded (`Nat`, `Int`): every length is taken
  to fit the machine types, and allocation succeeds.
* The two loops follow `from` pointers through the heap, so they take fuel;
  running out of fuel is `none`.
-/

namespace ErrorC

/-- Name of an allocation; a nullable C pointer is an `Option Ptr`. -/
abbrev Ptr := Nat

/-- Content of a C string: the characters before the terminating zero byte. -/
abbrev Text := List Char

/-- One byte of character storage. -/
inductive Cell where
  | undef
  | nul
  | chr (c : Char)
deriving DecidableEq, Repr

/-- The C structure `struct error` (`error_t`), field for field.  `msg` names the node
allocation whose trailing bytes hold the message; `format_msg` names a
character buffer; `filename` and `funcname` point to string literals and are
kept by value. -/
structure error_t where
  filename : Text
  line : Int
  funcname : Text
  msg : Ptr
  format_msg : Option Ptr
  msglen : Nat
  code : Int
  user_data : Option Ptr
  «from» : Option Ptr
deriving DecidableEq, Repr

/-- The heap and the global counter.  `nodes p` is the `error_t` stored in
allocation `p` together with the bytes allocated after it; `bufs p` is the
content of character buffer `p`; `next` is the next name the allocator hands
out. -/
structure Heap where
  nodes : Ptr → Option (error_t × List Cell)
  bufs : Ptr → Option (List Cell)
  next : Ptr
  error_mem_usage : Int

/-- State at program start: nothing allocated, the static counter is zero. -/
def Heap.init : Heap :=
  { nodes := fun _ => none, bufs := fun _ => none, next := 0, error_mem_usage := 0 }

/-- Store `v` at name `p` of a map. -/
def store {α : Type} (f : Ptr → Option α) (p : Ptr) (v : Option α) : Ptr → Option α :=
  fun q => if q = p then v else f q

/-- Read the C string that starts at the first cell (what `%s` and `strlen`
see); `none` when an indeterminate byte or the end of the allocation is
reached before a zero byte. -/
def cstr : List Cell → Option Text
  | [] => none
  | Cell.undef :: _ => none
  | Cell.nul :: _ => some []
  | Cell.chr c :: r => (cstr r).map (fun t => c :: t)

/-- The message text a `msg` pointer refers to. -/
def Heap.msg_text (h : Heap) (p : Ptr) : Option Text :=
  match h.nodes p with
  | none => none
  | some (_, tail) => cstr tail

/-- The text held by character buffer `p`. -/
def Heap.buf_text (h : Heap) (p : Ptr) : Option Text :=
  match h.bufs p with
  | none => none
  | some b => cstr b

/-- The call `snprintf(buf + pos, size, ...)` where the conversion renders `s`.  Returns
the buffer afterwards and the return value, the length of `s`.  With
`size = 0` nothing is stored (and `buf` may be null); otherwise the first
`size - 1` characters of `s` and a zero byte are stored from `pos` on, and a
store outside the buffer is `none`. -/
def snprintf (buf : Option (List Cell)) (pos size : Nat) (s : Text) :
    Option (Option (List Cell) × Nat) :=
  if size = 0 then some (buf, s.length)
  else
    match buf with
    | none => none
    | some b =>
      let w := (s.take (size - 1)).map Cell.chr ++ [Cell.nul]
      if pos + w.length ≤ b.length then
        some (some (b.take pos ++ w ++ b.drop (pos + w.length)), s.length)
      else none

/-- Rendering of `%d`. -/
def fmt_d (n : Int) : Text := (toString n).toList

/-- Text rendered by `"%s; at %s (%s:%d);"`. -/
def fmt_first (msg funcname filename : Text) (line : Int) : Text :=
  msg ++ "; at ".toList ++ funcname ++ " (".toList ++ filename ++ ":".toList ++ fmt_d line
    ++ ");".toList

/-- Text rendered by `" %s (%s:%d);"`. -/
def fmt_rest (funcname filename : Text) (line : Int) : Text :=
  " ".toList ++ funcname ++ " (".toList ++ filename ++ ":".toList ++ fmt_d line ++ ");".toList

/-- The function `error_new_`.  `m` is the text the sizing call
`vsnprintf(NULL, 0, fmt, args)` renders.  `m2` is the text the fill call
`vsnprintf(buf, sz + 1, fmt, args)` renders: it is handed the same `args`, which
the sizing call has already used (the source has no `va_copy`), so it fetches
what lies behind the arguments already fetched.  `m2` is `m` when the format
fetches no argument. -/
def error_new_ (S : Nat) (h : Heap) (filename : Text) (line : Int) (funcname : Text)
    (code : Int) (m m2 : Text) : Option (Heap × Ptr) :=
  match snprintf none 0 0 m with
  | none => none
  | some (_, sz) =>
    -- calloc(1, sizeof(error_t) + sz + 1): zero bytes
    let result := h.next
    let usage := h.error_mem_usage + ((S : Int) + sz + 1)
    match snprintf (some (List.replicate (sz + 1) Cell.nul)) 0 (sz + 1) m2 with
    | none => none
    | some (none, _) => none
    | some (some buf, _) =>
      let e : error_t :=
        { filename := filename, line := line, funcname := funcname, msg := result,
          format_msg := none, msglen := sz, code := code, user_data := none,
          «from» := none }
      some ({ nodes := store h.nodes result (some (e, buf)), bufs := h.bufs,
              next := h.next + 1, error_mem_usage := usage }, result)

/-- The function `error_from_`; dereferencing a null or dangling `err` is `none`. -/
def error_from_ (S : Nat) (h : Heap) (filename : Text) (line : Int) (funcname : Text)
    (err : Option Ptr) : Option (Heap × Ptr) :=
  -- calloc(1, sizeof(error_t))
  let result := h.next
  let usage := h.error_mem_usage + (S : Int)
  match err with
  | none => none
  | some p =>
    match h.nodes p with
    | none => none
    | some (e, _) =>
      let r : error_t :=
        { filename := filename, line := line, funcname := funcname, msg := e.msg,
          format_msg := none, msglen := e.msglen, code := e.code, user_data := none,
          «from» := some p }
      some ({ nodes := store h.nodes result (some (r, [])), bufs := h.bufs,
              next := h.next + 1, error_mem_usage := usage }, result)

/-- The `while (cerr)` loop of `error_formatbuf`, from the state `(cerr, buf, offs)`. -/
def error_formatbuf_loop (h : Heap) (err : Option Ptr) (inc bufsize : Nat) :
    Nat → Option Ptr → Option (List Cell) → Nat → Option (Option (List Cell) × Nat)
  | _, none, buf, offs => some (buf, offs)
  | 0, some _, _, _ => none
  | fuel + 1, some p, buf, offs =>
    match h.nodes p with
    | none => none
    | some (e, _) =>
      -- buf + offs*inc must stay inside the buffer
      if bufsize < offs * inc then none
      else if some p = err then
        match h.msg_text e.msg with
        | none => none
        | some m =>
          match snprintf buf (offs * inc) (bufsize - offs * inc)
              (fmt_first m e.funcname e.filename e.line) with
          | none => none
          | some (buf1, n) =>
            error_formatbuf_loop h err inc bufsize fuel e.«from» buf1 (offs + n)
      else
        match snprintf buf (offs * inc) (bufsize - offs * inc)
            (fmt_rest e.funcname e.filename e.line) with
        | none => none
        | some (buf1, n) =>
          error_formatbuf_loop h err inc bufsize fuel e.«from» buf1 (offs + n)

/-- The function `error_formatbuf`: the buffer afterwards and the returned offset. -/
def error_formatbuf (fuel : Nat) (h : Heap) (err : Option Ptr) (buf : Option (List Cell))
    (bufsize : Nat) : Option (Option (List Cell) × Nat) :=
  let offs := 0
  let inc := if bufsize = 0 then 0 else 1
  error_formatbuf_loop h err inc bufsize fuel err buf offs

/-- The function `error_format`: the heap afterwards and the returned `char*`. -/
def error_format (fuel : Nat) (h : Heap) (err : Option Ptr) : Option (Heap × Option Ptr) :=
  match err with
  | none => some (h, none)
  | some p =>
    match error_formatbuf fuel h (some p) none 0 with
    | none => none
    | some (_, sz) =>
      -- malloc(sz + 1): indeterminate bytes
      let buf := h.next
      let usage := h.error_mem_usage + ((sz : Int) + 1)
      match error_formatbuf fuel h (some p) (some (List.replicate (sz + 1) Cell.undef))
          (sz + 1) with
      | none => none
      | some (none, _) => none
      | some (some cells, _) =>
        match h.nodes p with
        | none => none
        | some (e, tail) =>
          some ({ nodes := store h.nodes p (some ({ e with format_msg := some buf }, tail)),
                  bufs := store h.bufs buf (some cells),
                  next := h.next + 1, error_mem_usage := usage }, some buf)

/-- The `while (cerr)` loop of `error_free`, from the state `(heap, cerr)`. -/
def error_free_loop (S : Nat) (err : Option Ptr) : Nat → Heap → Option Ptr → Option Heap
  | _, h, none => some h
  | 0, _, some _ => none
  | fuel + 1, h, some p =>
    match h.nodes p with
    | none => none
    | some (e, _) =>
      let next := e.«from»
      let u1 := h.error_mem_usage - (S : Int)
      let u2 := if some p = err then u1 - ((e.msglen : Int) + 1) else u1
      match e.format_msg with
      | none =>
        error_free_loop S err fuel
          { nodes := store h.nodes p none, bufs := h.bufs, next := h.next,
            error_mem_usage := u2 } next
      | some b =>
        -- strlen(cerr->format_msg), then free(cerr->format_msg)
        match h.buf_text b with
        | none => none
        | some t =>
          error_free_loop S err fuel
            { nodes := store h.nodes p none, bufs := store h.bufs b none, next := h.next,
              error_mem_usage := u2 - ((t.length : Int) + 1) } next

/-- The function `error_free`. -/
def error_free (S : Nat) (fuel : Nat) (h : Heap) (err : Option Ptr) : Option Heap :=
  error_free_loop S err fuel h err

/-- A call site: the values of `__FILE__`, `__LINE__` and `__func__` where a
macro is expanded. -/
structure Site where
  filename : Text
  line : Int
  funcname : Text
deriving DecidableEq, Repr

/-- The macro `error_new(code, fmt, ...)` expanded at call site `s`, for a format that
fetches no argument (as in `func1`), so that both `vsnprintf` calls render `m`. -/
def error_new (S : Nat) (h : Heap) (s : Site) (code : Int) (m : Text) : Option (Heap × Ptr) :=
  error_new_ S h s.filename s.line s.funcname code m m

/-- The macro `error_from(err)` expanded at call site `s`. -/
def error_from (S : Nat) (h : Heap) (s : Site) (err : Option Ptr) : Option (Heap × Ptr) :=
  error_from_ S h s.filename s.line s.funcname err

/-- The macro `error_try(act)` expanded at call site `s`, followed by the rest of the
routine: when `act` yields an error, return `error_from(err)`; otherwise go on
with `rest`. -/
def error_try (S : Nat) (s : Site) (act : Option (Heap × Option Ptr))
    (rest : Heap → Option (Heap × Option Ptr)) : Option (Heap × Option Ptr) :=
  match act with
  | none => none
  | some (h, none) => rest h
  | some (h, some err) =>
    match error_from S h s (some err) with
    | none => none
    | some (h1, r) => some (h1, some r)

/-- Value of `__FILE__` in the test routines. -/
def file_name : Text := "error.c".toList

/-- The test routine `func1_noerror`. -/
def func1_noerror (h : Heap) : Option (Heap × Option Ptr) := some (h, none)

/-- Call site of `error_try` in `func2_noerror`. -/
def site_func2_noerror : Site := ⟨file_name, 144, "func2_noerror".toList⟩

/-- The test routine `func2_noerror`. -/
def func2_noerror (S : Nat) (h : Heap) : Option (Heap × Option Ptr) :=
  error_try S site_func2_noerror (func1_noerror h) (fun h1 => some (h1, none))

/-- Call site of `error_new` in `func1`. -/
def site_func1 : Site := ⟨file_name, 149, "func1".toList⟩

/-- Call site of `error_try` in `func2`. -/
def site_func2 : Site := ⟨file_name, 153, "func2".toList⟩

/-- Call site of `error_try` in `func3`. -/
def site_func3 : Site := ⟨file_name, 158, "func3".toList⟩

/-- The message `func1` passes to `error_new`, rendered. -/
def msg_func1 : Text := "something bad happened".toList

/-- The test routine `func1`. -/
def func1 (S : Nat) (h : Heap) : Option (Heap × Option Ptr) :=
  match error_new S h site_func1 0 msg_func1 with
  | none => none
  | some (h1, r) => some (h1, some r)

/-- The test routine `func2`. -/
def func2 (S : Nat) (h : Heap) : Option (Heap × Option Ptr) :=
  error_try S site_func2 (func1 S h) (fun h1 => some (h1, none))

/-- The test routine `func3`. -/
def func3 (S : Nat) (h : Heap) : Option (Heap × Option Ptr) :=
  error_try S site_func3 (func2 S h) (fun h1 => some (h1, none))

/-- A routine shaped like `func2`, `func3` and `func2_noerror`: at call site `s` it
runs `error_try(callee());` and then returns `noerror`. -/
def frame (S : Nat) (s : Site) (callee : Heap → Option (Heap × Option Ptr)) (h : Heap) :
    Option (Heap × Option Ptr) :=
  error_try S s (callee h) (fun h1 => some (h1, none))

/-- A call path: `inner` is the innermost routine and the frames enclose it,
the first of the list directly around `inner`, the last outermost. -/
def call_path (S : Nat) (inner : Heap → Option (Heap × Option Ptr)) :
    List Site → Heap → Option (Heap × Option Ptr)
  | [] => inner
  | s :: ss => call_path S (frame S s inner) ss

/-- Apply `error_from` once per call site, the first of the list first. -/
def wrap_all (S : Nat) : List Site → Heap × Ptr → Option (Heap × Ptr)
  | [], x => some x
  | s :: ss, (h, p) =>
    match error_from S h s (some p) with
    | none => none
    | some x => wrap_all S ss x

/-- A chain built by `error_new` at `s0` followed by one `error_from` per site of
`wraps`, in order. -/
def build (S : Nat) (h : Heap) (s0 : Site) (code : Int) (m : Text) (wraps : List Site) :
    Option (Heap × Ptr) :=
  match error_new S h s0 code m with
  | none => none
  | some x => wrap_all S wraps x

/-- The nodes reached from `c` by following `from` up to the null pointer are
exactly those of the list (allocation name and content), outermost first. -/
def Chain (nodes : Ptr → Option (error_t × List Cell)) :
    Option Ptr → List (Ptr × error_t) → Prop
  | none, [] => True
  | some _, [] => False
  | none, _ :: _ => False
  | some p, x :: rest =>
    p = x.1 ∧ (∃ tail, nodes p = some (x.2, tail)) ∧ Chain nodes x.2.«from» rest

/-- The location segment of a call site as both format strings print it:
a blank, the routine, a blank, and `(source:line);`. -/
def segment (s : Site) : Text := fmt_rest s.funcname s.filename s.line

/-- The call site recorded in a node. -/
def error_t.site (e : error_t) : Site := ⟨e.filename, e.line, e.funcname⟩

/-- The segments `error_formatbuf` prints for the nodes after the first. -/
def rest_text (es : List error_t) : Text :=
  (es.map fun x => fmt_rest x.funcname x.filename x.line).flatten

/-- The text `error_formatbuf` assembles for a chain whose message is `m`. -/
def chain_text (m : Text) : List error_t → Text
  | [] => []
  | e :: es => fmt_first m e.funcname e.filename e.line ++ rest_text es

/-- The text of character buffer `r` in the result of an `error_format` call. -/
def returned_text (r : Option (Heap × Option Ptr)) : Option Text :=
  match r with
  | some (h, some p) => h.buf_text p
  | _ => none

/-- The node `error_new_` fills in at allocation `n`. -/
def root_node (n : Ptr) (s : Site) (code : Int) (m : Text) : error_t :=
  { filename := s.filename, line := s.line, funcname := s.funcname, msg := n,
    format_msg := none, msglen := m.length, code := code, user_data := none, «from» := none }

/-- The node `error_from_` fills in at call site `s` around the node `e` stored at `p`. -/
def wrapper (s : Site) (p : Ptr) (e : error_t) : error_t :=
  { filename := s.filename, line := s.line, funcname := s.funcname, msg := e.msg,
    format_msg := none, msglen := e.msglen, code := e.code, user_data := none,
    «from» := some p }

/-- The chain that results from wrapping the chain `x :: l` once per call site,
the wrappers taking the allocation names `n`, `n + 1`, and so on. -/
def wrap_list : List Site → Ptr → Ptr × error_t → List (Ptr × error_t) → List (Ptr × error_t)
  | [], _, x, l => x :: l
  | s :: ss, n, x, l => wrap_list ss (n + 1) (n, wrapper s x.1 x.2) (x :: l)

/-- The nodes of the chain `build` makes when the allocator is at `n`. -/
def built_nodes (n : Ptr) (s0 : Site) (code : Int) (m : Text) (wraps : List Site) :
    List (Ptr × error_t) :=
  wrap_list wraps (n + 1) (n, root_node n s0 code m) []

/-- Call `error_format` on the value a routine returned, as `testerror` does. -/
def format_result (fuel : Nat) (r : Option (Heap × Option Ptr)) : Option (Heap × Option Ptr) :=
  match r with
  | none => none
  | some (h, e) => error_format fuel h e

/-- Call `error_format` twice in a row on the value a routine returned; the
result lists the heap and the returned pointer after each call. -/
def format_twice (fuel : Nat) (r : Option (Heap × Option Ptr)) :
    Option (Heap × Option Ptr × Heap × Option Ptr) :=
  match r with
  | none => none
  | some (h, e) =>
    match error_format fuel h e with
    | none => none
    | some (h1, r1) =>
      match error_format fuel h1 e with
      | none => none
      | some (h2, r2) => some (h1, r1, h2, r2)

/-- The body of `testerror` up to its first `assert`, with `error_format` called
`k` times on `err` before `error_free(err)`; yields the counter the assertion
compares with zero. -/
def format_times (fuel : Nat) (e : Option Ptr) : Nat → Heap → Option Heap
  | 0, h => some h
  | k + 1, h =>
    match error_format fuel h e with
    | none => none
    | some (h1, _) => format_times fuel e k h1

/-- Run `func1`, call `error_format` on its value `k` times, then `error_free`;
yields the final counter. -/
def func1_format_free (S fuel k : Nat) (h : Heap) : Option Int :=
  match func1 S h with
  | none => none
  | some (h1, e) =>
    match format_times fuel e k h1 with
    | none => none
    | some h2 =>
      match error_free S fuel h2 e with
      | none => none
      | some h3 => some h3.error_mem_usage

/-- The root node `func1` makes at allocation 0. -/
def sample_root : error_t := root_node 0 site_func1 0 msg_func1

/-- The wrapper `func2` makes around `sample_root`. -/
def sample_outer : error_t := wrapper site_func2 0 sample_root

/-- The heap `func2` leaves when run from `Heap.init` with `sizeof(error_t) = 72`:
the root at allocation 0 and its wrapper at allocation 1. -/
def sample_heap : Heap :=
  { nodes := store (store (fun _ => none) 0
        (some (sample_root, msg_func1.map Cell.chr ++ [Cell.nul])))
      1 (some (sample_outer, [])),
    bufs := fun _ => none, next := 2, error_mem_usage := 167 }

/-- The node `sample_outer` once `error_format` has cached a text in buffer 2. -/
def sample_cached_outer : error_t := { sample_outer with format_msg := some 2 }

/-- The heap `sample_heap` after one `error_format` call on its outermost node. -/
def sample_cached_heap : Heap :=
  { nodes := store sample_heap.nodes 1 (some (sample_cached_outer, [])),
    bufs := store sample_heap.bufs 2
      (some ((chain_text msg_func1 [sample_outer, sample_root]).map Cell.chr ++ [Cell.nul])),
    next := 3,
    error_mem_usage := sample_heap.error_mem_usage
      + (((chain_text msg_func1 [sample_outer, sample_root]).length : Int) + 1) }

/-- A routine shaped like `func1`: at call site `s` it returns `error_new(code, ...)`,
the message rendering to `m`. -/
def create_frame (S : Nat) (s : Site) (code : Int) (m : Text) (h : Heap) :
    Option (Heap × Option Ptr) :=
  match error_new S h s code m with
  | none => none
  | some (h1, r) => some (h1, some r)

/-- One call of the interface: `error_new`, `error_from`, `error_format` or
`error_free`, with its arguments. -/
inductive Op where
  | new (s : Site) (code : Int) (m : Text)
  | wrap (s : Site) (err : Option Ptr)
  | format (err : Option Ptr)
  | free (err : Option Ptr)
deriving DecidableEq

/-- The heap after one call. -/
def Op.step (S fuel : Nat) (h : Heap) : Op → Option Heap
  | Op.new s code m => (error_new S h s code m).map Prod.fst
  | Op.wrap s err => (error_from S h s err).map Prod.fst
  | Op.format err => (error_format fuel h err).map Prod.fst
  | Op.free err => error_free S fuel h err

/-- The heap after a sequence of calls, the first of the list first. -/
def run (S fuel : Nat) : List Op → Heap → Option Heap
  | [], h => some h
  | op :: ops, h =>
    match op.step S fuel h with
    | none => none
    | some h1 => run S fuel ops h1

/-- Whether the text `pat` is found at the very start of the text. -/
def starts_with : Text → Text → Bool
  | [], _ => true
  | _ :: _, [] => false
  | a :: ps, b :: ts => a == b && starts_with ps ts

/-- Number of positions of a text at which the text `pat` is found. -/
def occurrences (pat : Text) : Text → Nat
  | [] => if starts_with pat [] then 1 else 0
  | c :: cs => (if starts_with pat (c :: cs) then 1 else 0) + occurrences pat cs

/-- Following the spec (pass 1 of Format): the required length is the sum of the
lengths of the segments, the first of which includes the message. -/
def required_length (m : Text) : List error_t → Nat
  | [] => 0
  | e :: es =>
    (fmt_first m e.funcname e.filename e.line).length
      + (es.map fun x => (fmt_rest x.funcname x.filename x.line).length).sum

/-! ## Texts and buffers -/

theorem cstr_cells (t : Text) (r : List Cell) :
    cstr (t.map Cell.chr ++ Cell.nul :: r) = some t := by
  induction t with
  | nil => rfl
  | cons c t ih => simp [cstr, ih]

theorem snprintf_size_zero (buf : Option (List Cell)) (pos : Nat) (s : Text) :
    snprintf buf pos 0 s = some (buf, s.length) := by
  simp [snprintf]

theorem snprintf_fits (b : List Cell) (pos size : Nat) (s : Text) (h1 : s.length < size)
    (h2 : pos + s.length + 1 ≤ b.length) :
    snprintf (some b) pos size s
      = some (some (b.take pos ++ s.map Cell.chr ++ Cell.nul :: b.drop (pos + s.length + 1)),
          s.length) := by
  have hs : size ≠ 0 := by omega
  have ht : s.take (size - 1) = s := List.take_of_length_le (by omega)
  simp only [snprintf, hs, if_false, ht, List.length_append, List.length_map,
    List.length_singleton]
  rw [if_pos (by omega)]
  simp [Nat.add_assoc]

theorem rest_text_cons (e : error_t) (es : List error_t) :
    rest_text (e :: es) = fmt_rest e.funcname e.filename e.line ++ rest_text es := by
  simp [rest_text]

/-! ## Chains in the heap -/

theorem chain_det (nodes : Ptr → Option (error_t × List Cell)) :
    ∀ (l1 l2 : List (Ptr × error_t)) (c : Option Ptr),
      Chain nodes c l1 → Chain nodes c l2 → l1 = l2 := by
  intro l1
  induction l1 with
  | nil =>
    intro l2 c h1 h2
    cases c with
    | some p => simp [Chain] at h1
    | none =>
      cases l2 with
      | nil => rfl
      | cons y ys => simp [Chain] at h2
  | cons x xs ih =>
    intro l2 c h1 h2
    cases c with
    | none => simp [Chain] at h1
    | some p =>
      cases l2 with
      | nil => simp [Chain] at h2
      | cons y ys =>
        simp only [Chain] at h1 h2
        obtain ⟨hx, ⟨t1, hn1⟩, hc1⟩ := h1
        obtain ⟨hy, ⟨t2, hn2⟩, hc2⟩ := h2
        rw [hn1] at hn2
        have hxy : x.2 = y.2 := by simpa using congrArg Prod.fst (Option.some.inj hn2)
        have hfst : x.1 = y.1 := by rw [← hx, ← hy]
        have hxy2 : x = y := Prod.ext hfst hxy
        subst hxy2
        rw [ih ys _ hc1 hc2]

theorem chain_suffix (nodes : Ptr → Option (error_t × List Cell)) :
    ∀ (l : List (Ptr × error_t)) (c : Option Ptr) (x : Ptr × error_t),
      Chain nodes c l → x ∈ l →
      ∃ l2, Chain nodes (some x.1) l2 ∧ l2.length ≤ l.length := by
  intro l
  induction l with
  | nil => intro c x _ hx; simp at hx
  | cons y ys ih =>
    intro c x hc hx
    cases c with
    | none => simp [Chain] at hc
    | some p =>
      rcases List.mem_cons.mp hx with hxy | hxs
      · subst hxy
        have hp : p = x.1 := by simp only [Chain] at hc; exact hc.1
        exact ⟨x :: ys, by rw [← hp]; exact hc, le_refl _⟩
      · simp only [Chain] at hc
        obtain ⟨l2, h2, hlen⟩ := ih _ x hc.2.2 hxs
        exact ⟨l2, h2, by simp; omega⟩

theorem chain_acyclic (nodes : Ptr → Option (error_t × List Cell)) (p : Ptr)
    (x : Ptr × error_t) (rest : List (Ptr × error_t))
    (hc : Chain nodes (some p) (x :: rest)) : ∀ y ∈ rest, y.1 ≠ p := by
  intro y hy hyp
  have hrest : Chain nodes x.2.«from» rest := by simp only [Chain] at hc; exact hc.2.2
  obtain ⟨l2, h2, hlen⟩ := chain_suffix nodes rest _ y hrest hy
  rw [hyp] at h2
  have := chain_det nodes _ _ _ h2 hc
  rw [this] at hlen
  simp at hlen

theorem chain_nodup (nodes : Ptr → Option (error_t × List Cell)) :
    ∀ (l : List (Ptr × error_t)) (c : Option Ptr),
      Chain nodes c l → (l.map Prod.fst).Nodup := by
  intro l
  induction l with
  | nil => intro c _; simp
  | cons x xs ih =>
    intro c hc
    cases c with
    | none => simp [Chain] at hc
    | some p =>
      have hac := chain_acyclic nodes p x xs hc
      simp only [Chain] at hc
      rw [List.map_cons, List.nodup_cons]
      refine ⟨?_, ih _ hc.2.2⟩
      intro hmem
      obtain ⟨y, hy, hy1⟩ := List.mem_map.mp hmem
      exact hac y hy (by rw [hy1, hc.1])

theorem chain_store (nodes : Ptr → Option (error_t × List Cell)) (a : Ptr)
    (v : Option (error_t × List Cell)) :
    ∀ (l : List (Ptr × error_t)) (c : Option Ptr),
      Chain nodes c l → (∀ y ∈ l, y.1 ≠ a) → Chain (store nodes a v) c l := by
  intro l
  induction l with
  | nil =>
    intro c hc _
    cases c with
    | none => simp [Chain]
    | some p => simp [Chain] at hc
  | cons x xs ih =>
    intro c hc hne
    cases c with
    | none => simp [Chain] at hc
    | some p =>
      simp only [Chain] at hc ⊢
      obtain ⟨hp, ⟨t, hn⟩, hr⟩ := hc
      refine ⟨hp, ⟨t, ?_⟩, ih _ hr (fun y hy => hne y (List.mem_cons_of_mem _ hy))⟩
      have : p ≠ a := by rw [hp]; exact hne x (List.mem_cons_self _ _)
      simp [store, this, hn]

/-! ## The two passes of `error_formatbuf` -/

theorem formatbuf_size_rest (h : Heap) (err : Option Ptr) :
    ∀ (l : List (Ptr × error_t)) (c : Option Ptr) (fuel offs : Nat),
      Chain h.nodes c l → (∀ x ∈ l, some x.1 ≠ err) → l.length ≤ fuel →
      error_formatbuf_loop h err 0 0 fuel c none offs
        = some (none, offs + (rest_text (l.map Prod.snd)).length) := by
  intro l
  induction l with
  | nil =>
    intro c fuel offs hc _ _
    cases c with
    | some p => simp [Chain] at hc
    | none => cases fuel <;> simp [error_formatbuf_loop, rest_text]
  | cons x xs ih =>
    intro c fuel offs hc hne hf
    cases c with
    | none => simp [Chain] at hc
    | some p =>
      cases fuel with
      | zero => simp at hf
      | succ fuel =>
        simp only [Chain] at hc
        obtain ⟨hp, ⟨t, hn⟩, hr⟩ := hc
        have hpe : some p ≠ err := by rw [hp]; exact hne x (List.mem_cons_self _ _)
        simp only [error_formatbuf_loop, hn, Nat.mul_zero, Nat.not_lt_zero, if_false, hpe,
          Nat.sub_zero, snprintf_size_zero]
        rw [ih _ fuel _ hr (fun y hy => hne y (List.mem_cons_of_mem _ hy))
          (by simpa using hf)]
        simp [rest_text_cons, Nat.add_assoc]

theorem formatbuf_fill_rest (h : Heap) (err : Option Ptr) (B : Nat) :
    ∀ (l : List (Ptr × error_t)) (c : Option Ptr) (fuel : Nat) (W : Text) (post : List Cell),
      Chain h.nodes c l → (∀ x ∈ l, some x.1 ≠ err) → l.length ≤ fuel →
      B = W.length + 1 + post.length →
      (rest_text (l.map Prod.snd)).length ≤ post.length →
      ∃ post2 : List Cell,
        post2.length + (rest_text (l.map Prod.snd)).length = post.length ∧
        error_formatbuf_loop h err 1 B fuel c (some (W.map Cell.chr ++ Cell.nul :: post))
            W.length
          = some (some ((W ++ rest_text (l.map Prod.snd)).map Cell.chr ++ Cell.nul :: post2),
              W.length + (rest_text (l.map Prod.snd)).length) := by
  intro l
  induction l with
  | nil =>
    intro c fuel W post hc _ _ _ _
    cases c with
    | some p => simp [Chain] at hc
    | none =>
      refine ⟨post, by simp [rest_text], ?_⟩
      cases fuel <;> simp [error_formatbuf_loop, rest_text]
  | cons x xs ih =>
    intro c fuel W post hc hne hf hB hlen
    cases c with
    | none => simp [Chain] at hc
    | some p =>
      cases fuel with
      | zero => simp at hf
      | succ fuel =>
        simp only [Chain] at hc
        obtain ⟨hp, ⟨t, hn⟩, hr⟩ := hc
        have hpe : some p ≠ err := by rw [hp]; exact hne x (List.mem_cons_self _ _)
        rw [List.map_cons, rest_text_cons, List.length_append] at hlen
        have hfit := snprintf_fits (W.map Cell.chr ++ Cell.nul :: post) W.length
          (B - W.length) (fmt_rest x.2.funcname x.2.filename x.2.line) (by omega)
          (by simp; omega)
        have htake : List.take W.length (W.map Cell.chr ++ Cell.nul :: post)
            = W.map Cell.chr := List.take_left' (by simp)
        have hdrop : List.drop (W.length + (fmt_rest x.2.funcname x.2.filename x.2.line).length
            + 1) (W.map Cell.chr ++ Cell.nul :: post)
            = List.drop (fmt_rest x.2.funcname x.2.filename x.2.line).length post := by
          have : (W.map Cell.chr).length = W.length := by simp
          rw [Nat.add_assoc, ← this, List.drop_append, List.drop_succ_cons]
        rw [htake, hdrop] at hfit
        obtain ⟨post2, hp2, hrun⟩ := ih x.2.«from» fuel
          (W ++ fmt_rest x.2.funcname x.2.filename x.2.line)
          (List.drop (fmt_rest x.2.funcname x.2.filename x.2.line).length post) hr
          (fun y hy => hne y (List.mem_cons_of_mem _ hy)) (by simpa using hf)
          (by simp; omega) (by simp; omega)
        refine ⟨post2, ?_, ?_⟩
        · rw [List.map_cons, rest_text_cons, List.length_append]
          simp at hp2
          omega
        · have hlt : ¬ B < W.length := by omega
          simp only [error_formatbuf_loop, hn, hlt, if_false, hpe, Nat.mul_one, hfit]
          rw [List.length_append, List.map_append] at hrun
          rw [List.map_cons, rest_text_cons, List.length_append, ← List.append_assoc,
            ← Nat.add_assoc]
          exact hrun

theorem formatbuf_size (h : Heap) (p : Ptr) (x : Ptr × error_t) (rest : List (Ptr × error_t))
    (m : Text) (fuel : Nat) (hc : Chain h.nodes (some p) (x :: rest))
    (hm : h.msg_text x.2.msg = some m) (hf : rest.length + 1 ≤ fuel) :
    error_formatbuf fuel h (some p) none 0
      = some (none, (chain_text m ((x :: rest).map Prod.snd)).length) := by
  have hac := chain_acyclic h.nodes p x rest hc
  cases fuel with
  | zero => simp at hf
  | succ fuel =>
    simp only [Chain] at hc
    obtain ⟨_, ⟨t, hn⟩, hr⟩ := hc
    simp only [error_formatbuf, if_true, error_formatbuf_loop, hn, Nat.mul_zero,
      Nat.not_lt_zero, if_false, hm, Nat.sub_zero, snprintf_size_zero]
    rw [formatbuf_size_rest h (some p) rest _ fuel _ hr
      (fun y hy hyp => hac y hy (Option.some.inj hyp)) (by omega)]
    simp [chain_text]

theorem formatbuf_fill (h : Heap) (p : Ptr) (x : Ptr × error_t) (rest : List (Ptr × error_t))
    (m : Text) (fuel : Nat) (hc : Chain h.nodes (some p) (x :: rest))
    (hm : h.msg_text x.2.msg = some m) (hf : rest.length + 1 ≤ fuel) :
    error_formatbuf fuel h (some p)
        (some (List.replicate ((chain_text m ((x :: rest).map Prod.snd)).length + 1) Cell.undef))
        ((chain_text m ((x :: rest).map Prod.snd)).length + 1)
      = some (some ((chain_text m ((x :: rest).map Prod.snd)).map Cell.chr ++ [Cell.nul]),
          (chain_text m ((x :: rest).map Prod.snd)).length) := by
  have hac := chain_acyclic h.nodes p x rest hc
  cases fuel with
  | zero => simp at hf
  | succ fuel =>
    simp only [Chain] at hc
    obtain ⟨_, ⟨t, hn⟩, hr⟩ := hc
    have hT : (chain_text m ((x :: rest).map Prod.snd)).length
        = (fmt_first m x.2.funcname x.2.filename x.2.line).length
          + (rest_text (rest.map Prod.snd)).length := by
      simp [chain_text]
    generalize hF : fmt_first m x.2.funcname x.2.filename x.2.line = F at hT
    generalize hN : (chain_text m ((x :: rest).map Prod.snd)).length = n at hT
    have hfit := snprintf_fits (List.replicate (n + 1) Cell.undef) 0 (n + 1) F (by omega)
      (by simp; omega)
    obtain ⟨post2, hp2, hrun⟩ := formatbuf_fill_rest h (some p) (n + 1) rest x.2.«from» fuel F
      (List.drop (F.length + 1) (List.replicate (n + 1) Cell.undef)) hr
      (fun y hy hyp => hac y hy (Option.some.inj hyp)) (by omega) (by simp; omega)
      (by simp; omega)
    have hnil : post2 = [] := by
      apply List.eq_nil_of_length_eq_zero
      simp at hp2
      omega
    subst hnil
    have hne : n + 1 ≠ 0 := by omega
    simp only [error_formatbuf, hne, if_false, error_formatbuf_loop, hn, Nat.zero_mul,
      Nat.not_lt_zero, if_true, hm, Nat.sub_zero, hF, hfit, List.take_zero, List.nil_append,
      Nat.zero_add]
    rw [hrun]
    have hct : chain_text m ((x :: rest).map Prod.snd) = F ++ rest_text (rest.map Prod.snd) := by
      simp [chain_text, hF]
    rw [hct, hT]

theorem error_format_chain (h : Heap) (p : Ptr) (x : Ptr × error_t)
    (rest : List (Ptr × error_t)) (m : Text) (fuel : Nat)
    (hc : Chain h.nodes (some p) (x :: rest)) (hm : h.msg_text x.2.msg = some m)
    (hf : rest.length + 1 ≤ fuel) :
    ∃ tail, h.nodes p = some (x.2, tail) ∧
      error_format fuel h (some p)
        = some ({ nodes := store h.nodes p (some ({ x.2 with format_msg := some h.next }, tail)),
                  bufs := store h.bufs h.next
                    (some ((chain_text m ((x :: rest).map Prod.snd)).map Cell.chr ++ [Cell.nul])),
                  next := h.next + 1,
                  error_mem_usage := h.error_mem_usage
                    + (((chain_text m ((x :: rest).map Prod.snd)).length : Int) + 1) },
                some h.next) := by
  have h1 := formatbuf_size h p x rest m fuel hc hm hf
  have h2 := formatbuf_fill h p x rest m fuel hc hm hf
  simp only [Chain] at hc
  obtain ⟨_, ⟨t, hn⟩, _⟩ := hc
  refine ⟨t, hn, ?_⟩
  simp only [error_format, h1, h2, hn]

theorem buf_text_store (h : Heap) (b : Ptr) (T : Text) (nodes : Ptr → Option (error_t × List Cell))
    (n : Ptr) (u : Int) :
    Heap.buf_text { nodes := nodes, bufs := store h.bufs b (some (T.map Cell.chr ++ [Cell.nul])),
                    next := n, error_mem_usage := u } b = some T := by
  simp [Heap.buf_text, store, cstr_cells]

theorem error_format_text (h : Heap) (p : Ptr) (x : Ptr × error_t)
    (rest : List (Ptr × error_t)) (m : Text) (fuel : Nat)
    (hc : Chain h.nodes (some p) (x :: rest)) (hm : h.msg_text x.2.msg = some m)
    (hf : rest.length + 1 ≤ fuel) :
    returned_text (error_format fuel h (some p))
      = some (chain_text m ((x :: rest).map Prod.snd)) := by
  obtain ⟨t, _, hrun⟩ := error_format_chain h p x rest m fuel hc hm hf
  rw [hrun]
  simp only [returned_text]
  exact buf_text_store h h.next _ _ _ _

/-! ## Building chains -/

theorem error_new_eq (S : Nat) (h : Heap) (s : Site) (code : Int) (m : Text) :
    error_new S h s code m
      = some ({ nodes := store h.nodes h.next
                  (some (root_node h.next s code m, m.map Cell.chr ++ [Cell.nul])),
                bufs := h.bufs, next := h.next + 1,
                error_mem_usage := h.error_mem_usage + ((S : Int) + m.length + 1) },
              h.next) := by
  have hfit := snprintf_fits (List.replicate (m.length + 1) Cell.nul) 0 (m.length + 1) m
    (by omega) (by simp)
  simp only [List.take_zero, List.nil_append, Nat.zero_add] at hfit
  have hdrop : List.drop (m.length + 1) (List.replicate (m.length + 1) Cell.nul) = [] := by
    apply List.drop_of_length_le
    simp
  rw [hdrop] at hfit
  simp only [error_new, error_new_, snprintf_size_zero, hfit, root_node]

theorem error_from_eq (S : Nat) (h : Heap) (s : Site) (p : Ptr) (e : error_t)
    (tail : List Cell) (hn : h.nodes p = some (e, tail)) :
    error_from S h s (some p)
      = some ({ nodes := store h.nodes h.next (some (wrapper s p e, [])),
                bufs := h.bufs, next := h.next + 1,
                error_mem_usage := h.error_mem_usage + (S : Int) },
              h.next) := by
  simp only [error_from, error_from_, hn, wrapper]

theorem chain_cons_intro (nodes : Ptr → Option (error_t × List Cell)) (p : Ptr) (e : error_t)
    (tail : List Cell) (l : List (Ptr × error_t)) (hn : nodes p = some (e, tail))
    (hc : Chain nodes e.«from» l) : Chain nodes (some p) ((p, e) :: l) := by
  simp only [Chain]
  exact ⟨trivial, ⟨tail, hn⟩, hc⟩

theorem wrap_list_ne_nil (wraps : List Site) :
    ∀ (n : Ptr) (x : Ptr × error_t) (l : List (Ptr × error_t)), wrap_list wraps n x l ≠ [] := by
  induction wraps with
  | nil => intro n x l; simp [wrap_list]
  | cons s ss ih => intro n x l; simp only [wrap_list]; exact ih _ _ _

theorem wrap_all_chain (S : Nat) (wraps : List Site) :
    ∀ (h : Heap) (p : Ptr) (e : error_t) (l : List (Ptr × error_t)),
      Chain h.nodes (some p) ((p, e) :: l) → (∀ y ∈ (p, e) :: l, y.1 < h.next) →
      ∃ (h2 : Heap) (p2 : Ptr),
        wrap_all S wraps (h, p) = some (h2, p2) ∧
        Chain h2.nodes (some p2) (wrap_list wraps h.next (p, e) l) ∧
        (∀ y ∈ wrap_list wraps h.next (p, e) l, y.1 < h2.next) ∧
        h2.bufs = h.bufs ∧ h2.next = h.next + wraps.length ∧
        h2.error_mem_usage = h.error_mem_usage + (S : Int) * wraps.length ∧
        (∀ a, a < h.next → h2.nodes a = h.nodes a) := by
  induction wraps with
  | nil =>
    intro h p e l hc hlt
    exact ⟨h, p, rfl, hc, hlt, rfl, rfl, by simp, fun _ _ => rfl⟩
  | cons s ss ih =>
    intro h p e l hc hlt
    have hn : ∃ tail, h.nodes p = some (e, tail) := by
      simp only [Chain] at hc; exact hc.2.1
    obtain ⟨tail, hn⟩ := hn
    have hstep := error_from_eq S h s p e tail hn
    have hc1 : Chain (store h.nodes h.next (some (wrapper s p e, []))) (some h.next)
        ((h.next, wrapper s p e) :: (p, e) :: l) := by
      apply chain_cons_intro _ _ _ []
      · simp [store]
      · exact chain_store _ _ _ _ _ hc (fun y hy => Nat.ne_of_lt (hlt y hy))
    obtain ⟨h2, p2, hw, hch, hlt2, hb, hnx, hu, hfr⟩ :=
      ih { nodes := store h.nodes h.next (some (wrapper s p e, [])), bufs := h.bufs,
           next := h.next + 1, error_mem_usage := h.error_mem_usage + (S : Int) }
        h.next (wrapper s p e) ((p, e) :: l) hc1
        (by
          intro y hy
          rcases List.mem_cons.mp hy with hy1 | hy2
          · rw [hy1]; exact Nat.lt_succ_self _
          · exact Nat.lt_succ_of_lt (hlt y hy2))
    refine ⟨h2, p2, ?_, hch, hlt2, hb, ?_, ?_, ?_⟩
    · simp only [wrap_all, hstep]; exact hw
    · rw [hnx, List.length_cons, Nat.add_assoc, Nat.add_comm 1]
    · rw [hu]; simp; ring
    · intro a ha
      rw [hfr a (Nat.lt_succ_of_lt ha)]
      simp [store, Nat.ne_of_lt ha]

theorem build_chain (S : Nat) (h : Heap) (s0 : Site) (code : Int) (m : Text)
    (wraps : List Site) :
    ∃ (h2 : Heap) (p2 : Ptr),
      build S h s0 code m wraps = some (h2, p2) ∧
      Chain h2.nodes (some p2) (built_nodes h.next s0 code m wraps) ∧
      h2.bufs = h.bufs ∧ h2.next = h.next + 1 + wraps.length ∧
      h2.error_mem_usage
        = h.error_mem_usage + ((S : Int) + m.length + 1) + (S : Int) * wraps.length ∧
      h2.msg_text h.next = some m ∧
      (∀ y ∈ built_nodes h.next s0 code m wraps, y.1 < h2.next) := by
  have hnew := error_new_eq S h s0 code m
  obtain ⟨h2, p2, hw, hch, hlt, hb, hnx, hu, hfr⟩ :=
    wrap_all_chain S wraps
      { nodes := store h.nodes h.next
          (some (root_node h.next s0 code m, m.map Cell.chr ++ [Cell.nul])),
        bufs := h.bufs, next := h.next + 1,
        error_mem_usage := h.error_mem_usage + ((S : Int) + m.length + 1) }
      h.next (root_node h.next s0 code m) []
      (by
        apply chain_cons_intro _ _ _ (m.map Cell.chr ++ [Cell.nul])
        · simp [store]
        · simp [root_node, Chain])
      (by intro y hy; simp at hy; rw [hy]; exact Nat.lt_succ_self _)
  refine ⟨h2, p2, ?_, hch, hb, hnx, hu, ?_, hlt⟩
  · simp only [build, hnew]; exact hw
  · have := hfr h.next (Nat.lt_succ_self _)
    simp only [Heap.msg_text, this]
    simp [store, cstr_cells]

theorem wrap_list_sites (wraps : List Site) :
    ∀ (n : Ptr) (x : Ptr × error_t) (l : List (Ptr × error_t)),
      (wrap_list wraps n x l).map (fun y => y.2.site)
        = wraps.reverse ++ (x :: l).map (fun y => y.2.site) := by
  induction wraps with
  | nil => intro n x l; simp [wrap_list]
  | cons s ss ih =>
    intro n x l
    simp only [wrap_list]
    rw [ih]
    simp [wrapper, error_t.site]

theorem wrap_list_fields (wraps : List Site) :
    ∀ (n : Ptr) (x : Ptr × error_t) (l : List (Ptr × error_t)) (y : Ptr × error_t),
      y ∈ wrap_list wraps n x l →
      y ∈ x :: l ∨ (y.2.code = x.2.code ∧ y.2.msg = x.2.msg ∧ y.2.msglen = x.2.msglen
        ∧ y.2.format_msg = none) := by
  induction wraps with
  | nil => intro n x l y hy; left; simpa [wrap_list] using hy
  | cons s ss ih =>
    intro n x l y hy
    simp only [wrap_list] at hy
    rcases ih _ _ _ _ hy with h1 | h2
    · rcases List.mem_cons.mp h1 with h3 | h4
      · right; rw [h3]; simp [wrapper]
      · left; exact h4
    · right; simpa [wrapper] using h2

theorem built_nodes_sites (n : Ptr) (s0 : Site) (code : Int) (m : Text) (wraps : List Site) :
    (built_nodes n s0 code m wraps).map (fun y => y.2.site) = wraps.reverse ++ [s0] := by
  rw [built_nodes, wrap_list_sites]
  simp [root_node, error_t.site]

theorem built_nodes_length (n : Ptr) (s0 : Site) (code : Int) (m : Text) (wraps : List Site) :
    (built_nodes n s0 code m wraps).length = wraps.length + 1 := by
  have := congrArg List.length (built_nodes_sites n s0 code m wraps)
  simpa using this

theorem built_nodes_fields (n : Ptr) (s0 : Site) (code : Int) (m : Text) (wraps : List Site)
    (y : Ptr × error_t) (hy : y ∈ built_nodes n s0 code m wraps) :
    y.2.code = code ∧ y.2.msg = n ∧ y.2.msglen = m.length ∧ y.2.format_msg = none := by
  rcases wrap_list_fields wraps _ _ _ y hy with h1 | h2
  · simp at h1; rw [h1]; simp [root_node]
  · simpa [root_node] using h2

theorem fmt_first_eq (m f s : Text) (n : Int) :
    fmt_first m f s n = m ++ "; at".toList ++ fmt_rest f s n := by
  simp [fmt_first, fmt_rest]

theorem chain_text_eq (m : Text) (e : error_t) (es : List error_t) :
    chain_text m (e :: es)
      = m ++ "; at".toList ++ ((e :: es).map fun x => segment x.site).flatten := by
  simp [chain_text, rest_text, fmt_first_eq, segment, error_t.site, Function.comp_def]

/-! ## Releasing chains -/

theorem free_rest (S : Nat) (err : Option Ptr) :
    ∀ (l : List (Ptr × error_t)) (c : Option Ptr) (fuel : Nat) (h : Heap),
      Chain h.nodes c l → (∀ y ∈ l, some y.1 ≠ err) → (∀ y ∈ l, y.2.format_msg = none) →
      l.length ≤ fuel →
      ∃ h2, error_free_loop S err fuel h c = some h2 ∧
        h2.error_mem_usage = h.error_mem_usage - (S : Int) * l.length ∧
        h2.bufs = h.bufs ∧ h2.next = h.next ∧
        (∀ a, h2.nodes a = if a ∈ l.map Prod.fst then none else h.nodes a) := by
  intro l
  induction l with
  | nil =>
    intro c fuel h hc _ _ _
    cases c with
    | some p => simp [Chain] at hc
    | none => exact ⟨h, by cases fuel <;> simp [error_free_loop], by simp, rfl, rfl, by simp⟩
  | cons x xs ih =>
    intro c fuel h hc hne hfm hf
    cases c with
    | none => simp [Chain] at hc
    | some p =>
      cases fuel with
      | zero => simp at hf
      | succ fuel =>
        have hac := chain_acyclic h.nodes p x xs hc
        simp only [Chain] at hc
        obtain ⟨hp, ⟨t, hn⟩, hr⟩ := hc
        have hpe : some p ≠ err := by rw [hp]; exact hne x (List.mem_cons_self _ _)
        have hx : x.2.format_msg = none := hfm x (List.mem_cons_self _ _)
        obtain ⟨h2, hrun, hu, hb, hnx, hnodes⟩ := ih x.2.«from» fuel
          { nodes := store h.nodes p none, bufs := h.bufs, next := h.next,
            error_mem_usage := h.error_mem_usage - (S : Int) }
          (chain_store _ _ _ _ _ hr hac)
          (fun y hy => hne y (List.mem_cons_of_mem _ hy))
          (fun y hy => hfm y (List.mem_cons_of_mem _ hy)) (by simpa using hf)
        refine ⟨h2, ?_, ?_, hb, hnx, ?_⟩
        · simp only [error_free_loop, hn, hpe, if_false, hx]
          exact hrun
        · rw [hu]; simp only [List.length_cons]; push_cast; ring
        · intro a
          rw [hnodes a]
          by_cases ha : a ∈ xs.map Prod.fst
          · simp [ha]
          · by_cases hap : a = p
            · simp [ha, store, hap, hp]
            · have : a ≠ x.1 := by rw [← hp]; exact hap
              simp [ha, store, hap, this]

theorem free_cached_head (S : Nat) (h : Heap) (p : Ptr) (x : Ptr × error_t)
    (rest : List (Ptr × error_t)) (b : Ptr) (T : Text) (fuel : Nat)
    (hc : Chain h.nodes (some p) (x :: rest)) (hx : x.2.format_msg = some b)
    (hT : h.buf_text b = some T) (hfm : ∀ y ∈ rest, y.2.format_msg = none)
    (hf : rest.length + 1 ≤ fuel) :
    ∃ h2, error_free S fuel h (some p) = some h2 ∧
      h2.error_mem_usage = h.error_mem_usage - (S : Int) * (rest.length + 1)
        - ((x.2.msglen : Int) + 1) - ((T.length : Int) + 1) ∧
      h2.bufs = store h.bufs b none ∧ h2.next = h.next ∧
      (∀ a, h2.nodes a = if a ∈ (x :: rest).map Prod.fst then none else h.nodes a) := by
  have hac := chain_acyclic h.nodes p x rest hc
  cases fuel with
  | zero => simp at hf
  | succ fuel =>
    simp only [Chain] at hc
    obtain ⟨hp, ⟨t, hn⟩, hr⟩ := hc
    obtain ⟨h2, hrun, hu, hb, hnx, hnodes⟩ := free_rest S (some p) rest x.2.«from» fuel
      { nodes := store h.nodes p none, bufs := store h.bufs b none, next := h.next,
        error_mem_usage := h.error_mem_usage - (S : Int) - ((x.2.msglen : Int) + 1)
          - ((T.length : Int) + 1) }
      (chain_store _ _ _ _ _ hr hac)
      (fun y hy hyp => hac y hy (Option.some.inj hyp)) hfm (by omega)
    refine ⟨h2, ?_, ?_, hb, hnx, ?_⟩
    · simp only [error_free, error_free_loop, hn, if_true, hx, hT]
      exact hrun
    · rw [hu]; push_cast; ring
    · intro a
      rw [hnodes a]
      by_cases ha : a ∈ rest.map Prod.fst
      · simp [ha]
      · by_cases hap : a = p
        · simp [ha, store, hap, hp]
        · have : a ≠ x.1 := by rw [← hp]; exact hap
          simp [ha, store, hap, this]

theorem chain_store_head (nodes : Ptr → Option (error_t × List Cell)) (p : Ptr)
    (x : Ptr × error_t) (rest : List (Ptr × error_t)) (e2 : error_t) (tail : List Cell)
    (hc : Chain nodes (some p) (x :: rest)) (hfrom : e2.«from» = x.2.«from») :
    Chain (store nodes p (some (e2, tail))) (some p) ((p, e2) :: rest) := by
  have hac := chain_acyclic nodes p x rest hc
  simp only [Chain] at hc
  apply chain_cons_intro _ _ _ tail
  · simp [store]
  · rw [hfrom]
    exact chain_store _ _ _ _ _ hc.2.2 hac

theorem store_same {α : Type} (f : Ptr → Option α) (p : Ptr) (v : Option α) :
    store f p v p = v := by
  simp [store]

theorem format_result_some (fuel : Nat) (h : Heap) (p : Ptr) :
    format_result fuel (some (h, some p)) = error_format fuel h (some p) := rfl

theorem func3_eq_build (S : Nat) (h : Heap) :
    func3 S h
      = (build S h site_func1 0 msg_func1 [site_func2, site_func3]).map
          (fun x => (x.1, some x.2)) := by
  simp only [func3, func2, func1, error_try, build, wrap_all, error_new_eq]
  rw [error_from_eq S _ _ _ _ _ (store_same _ _ _)]
  simp only []
  rw [error_from_eq S _ _ _ _ _ (store_same _ _ _)]
  simp

theorem built_format_text (S : Nat) (h : Heap) (s0 : Site) (code : Int) (m : Text)
    (wraps : List Site) (fuel : Nat) (hf : wraps.length + 1 ≤ fuel) :
    ∃ (h1 : Heap) (p : Ptr),
      build S h s0 code m wraps = some (h1, p) ∧
      returned_text (error_format fuel h1 (some p))
        = some (m ++ "; at".toList ++ ((wraps.reverse ++ [s0]).map segment).flatten) := by
  obtain ⟨h1, p, hb, hch, _, _, _, hmsg, _⟩ := build_chain S h s0 code m wraps
  refine ⟨h1, p, hb, ?_⟩
  have hlen := built_nodes_length h.next s0 code m wraps
  have hsites := built_nodes_sites h.next s0 code m wraps
  have hfld := built_nodes_fields h.next s0 code m wraps
  generalize built_nodes h.next s0 code m wraps = l at hch hlen hsites hfld
  cases l with
  | nil => simp at hlen
  | cons x rest =>
    have hx : x.2.msg = h.next := (hfld x (List.mem_cons_self _ _)).2.1
    rw [error_format_text h1 p x rest m fuel hch (by rw [hx]; exact hmsg)
      (by simp at hlen; omega)]
    rw [List.map_cons, chain_text_eq, ← hsites]
    simp [Function.comp_def]

theorem msg_text_store_tail (h : Heap) (p : Ptr) (e e2 : error_t) (tail : List Cell)
    (bufs : Ptr → Option (List Cell)) (n : Ptr) (u : Int) (hn : h.nodes p = some (e, tail))
    (q : Ptr) :
    Heap.msg_text { nodes := store h.nodes p (some (e2, tail)), bufs := bufs, next := n,
                    error_mem_usage := u } q = h.msg_text q := by
  by_cases hq : q = p
  · simp [Heap.msg_text, store, hq, hn]
  · simp [Heap.msg_text, store, hq]

theorem call_path_noerror (S : Nat) (frames : List Site) :
    ∀ (inner : Heap → Option (Heap × Option Ptr)) (h h1 : Heap),
      inner h = some (h1, none) → call_path S inner frames h = some (h1, none) := by
  induction frames with
  | nil => intro inner h h1 hin; exact hin
  | cons s ss ih =>
    intro inner h h1 hin
    simp only [call_path]
    apply ih
    simp [frame, error_try, hin]

/-! ## The claims -/

/-- C1: for a chain built by `error_new` followed by N `error_from` calls, the
text `error_format` returns on the outermost node is the message, then `; at`,
then exactly N+1 location segments (routine, source, line), one per node, from
the last wrap down to the original create. -/
theorem C1_format_lists_every_location (S : Nat) (h : Heap) (s0 : Site) (code : Int)
    (m : Text) (wraps : List Site) (fuel : Nat) (hf : wraps.length + 1 ≤ fuel) :
    ∃ (h1 : Heap) (p : Ptr),
      build S h s0 code m wraps = some (h1, p) ∧
      returned_text (error_format fuel h1 (some p))
        = some (m ++ "; at".toList ++ ((wraps.reverse ++ [s0]).map segment).flatten) ∧
      (wraps.reverse ++ [s0]).length = wraps.length + 1 := by
  obtain ⟨h1, p, hb, ht⟩ := built_format_text S h s0 code m wraps fuel hf
  exact ⟨h1, p, hb, ht, by simp⟩

/-- C1 at a concrete input: the chain `func2` builds from the initial heap. -/
theorem C1_witness :
    [site_func2].length + 1 ≤ 2 ∧
    ∃ (h1 : Heap) (p : Ptr),
      build 72 Heap.init site_func1 0 msg_func1 [site_func2] = some (h1, p) ∧
      returned_text (error_format 2 h1 (some p))
        = some (msg_func1 ++ "; at".toList
            ++ (([site_func2].reverse ++ [site_func1]).map segment).flatten) ∧
      ([site_func2].reverse ++ [site_func1]).length = [site_func2].length + 1 :=
  ⟨by decide,
    C1_format_lists_every_location 72 Heap.init site_func1 0 msg_func1 [site_func2] 2
      (by decide)⟩

/-- C2 (as stated, refuted): on the two-node chain `func2` returns, `error_format`
does not produce `at` before the second segment and puts a blank between the
routine name and the parenthesis. -/
theorem C2_counterexample :
    returned_text (format_result 2 (func2 72 Heap.init))
      = some "something bad happened; at func2 (error.c:153); func1 (error.c:149);".toList ∧
    returned_text (format_result 2 (func2 72 Heap.init))
      ≠ some "something bad happened; at func2(error.c:153); at func1(error.c:149);".toList := by
  decide

/-- C2 (amended): for every chain, `error_format` returns exactly the message, then
`; at`, then one segment per node from the outermost to the root, each segment
being a blank, the routine, a blank, and `(source:line);`.  The word `at`
occurs once, before the first segment. -/
theorem C2_format_exact_text (h : Heap) (p : Ptr) (x : Ptr × error_t)
    (rest : List (Ptr × error_t)) (m : Text) (fuel : Nat)
    (hc : Chain h.nodes (some p) (x :: rest)) (hm : h.msg_text x.2.msg = some m)
    (hf : rest.length + 1 ≤ fuel) :
    returned_text (error_format fuel h (some p))
      = some (m ++ "; at".toList ++ ((x :: rest).map fun y => segment y.2.site).flatten) ∧
    ∀ s : Site, segment s
      = " ".toList ++ s.funcname ++ " (".toList ++ s.filename ++ ":".toList ++ fmt_d s.line
          ++ ");".toList := by
  refine ⟨?_, fun s => rfl⟩
  rw [error_format_text h p x rest m fuel hc hm hf, List.map_cons, chain_text_eq]
  simp [Function.comp_def]

/-- C2 (amended) at a concrete input: the two-node chain of `sample_heap`. -/
theorem C2_witness :
    Chain sample_heap.nodes (some 1) [(1, sample_outer), (0, sample_root)] ∧
    sample_heap.msg_text sample_outer.msg = some msg_func1 ∧
    [(0, sample_root)].length + 1 ≤ 2 ∧
    returned_text (error_format 2 sample_heap (some 1))
      = some (msg_func1 ++ "; at".toList
          ++ ([(1, sample_outer), (0, sample_root)].map fun y => segment y.2.site).flatten) :=
  ⟨⟨rfl, ⟨_, rfl⟩, rfl, ⟨_, rfl⟩, trivial⟩, by decide, by decide,
    (C2_format_exact_text sample_heap 1 (1, sample_outer) [(0, sample_root)] msg_func1 2
      ⟨rfl, ⟨_, rfl⟩, rfl, ⟨_, rfl⟩, trivial⟩ (by decide) (by decide)).1⟩

/-- C3 (as stated, refuted): the text `error_format` returns for the value of `func3`
is not the one that lists `func1` first and `func3` last with `at` before
every segment. -/
theorem C3_counterexample :
    returned_text (format_result 3 (func3 72 Heap.init))
      ≠ some ("something bad happened; at func1 (error.c:149); at func2 (error.c:153);"
          ++ " at func3 (error.c:158);").toList := by
  decide

/-- C3 (amended): Scenario A yields the locations from `func3` (outermost) down to
`func1` (the create), with `at` before the first segment only. -/
theorem C3_scenario_a_text (S : Nat) (h : Heap) (fuel : Nat) (hf : 3 ≤ fuel) :
    returned_text (format_result fuel (func3 S h))
      = some ("something bad happened; at func3 (error.c:158); func2 (error.c:153);"
          ++ " func1 (error.c:149);").toList := by
  obtain ⟨h1, p, hb, ht⟩ := built_format_text S h site_func1 0 msg_func1
    [site_func2, site_func3] fuel hf
  rw [func3_eq_build, hb]
  simp only [Option.map_some', format_result_some, ht]
  decide

/-- C3 (amended) at a concrete input: the initial heap, `sizeof(error_t) = 72`. -/
theorem C3_witness :
    3 ≤ 3 ∧
    returned_text (format_result 3 (func3 72 Heap.init))
      = some ("something bad happened; at func3 (error.c:158); func2 (error.c:153);"
          ++ " func1 (error.c:149);").toList :=
  ⟨by decide, C3_scenario_a_text 72 Heap.init 3 (by decide)⟩

/-- C4 (the code leaks): one `error_format` before `error_free` brings the counter
back to zero, a second `error_format` on the same node leaves it at 48, the
size of the buffer the first call allocated and the second call dropped. -/
theorem C4_second_format_leaks :
    func1_format_free 72 1 1 Heap.init = some 0 ∧
    func1_format_free 72 1 2 Heap.init = some 48 := by
  decide

/-- C5: from counter value `c`, building a chain by `error_new` and N `error_from`
calls, calling `error_format` once on the outermost node and then `error_free`
on it leaves the counter at `c`: `error_free` subtracts the node size per node,
`msglen + 1` once and the length of the cached text plus one, which is what the
other three operations added. -/
theorem C5_format_once_then_free_restores_counter (S : Nat) (h : Heap) (s0 : Site)
    (code : Int) (m : Text) (wraps : List Site) (fuel : Nat) (hf : wraps.length + 1 ≤ fuel) :
    ∃ (h1 : Heap) (p : Ptr) (h2 : Heap) (r : Ptr) (T : Text) (h3 : Heap),
      build S h s0 code m wraps = some (h1, p) ∧
      error_format fuel h1 (some p) = some (h2, some r) ∧
      h2.buf_text r = some T ∧
      error_free S fuel h2 (some p) = some h3 ∧
      h2.error_mem_usage = h.error_mem_usage
        + ((S : Int) * (wraps.length + 1) + ((m.length : Int) + 1) + ((T.length : Int) + 1)) ∧
      h3.error_mem_usage = h2.error_mem_usage
        - ((S : Int) * (wraps.length + 1) + ((m.length : Int) + 1) + ((T.length : Int) + 1)) ∧
      h3.error_mem_usage = h.error_mem_usage := by
  obtain ⟨h1, p, hb, hch, _, _, hu1, hmsg, _⟩ := build_chain S h s0 code m wraps
  have hlen := built_nodes_length h.next s0 code m wraps
  have hfld := built_nodes_fields h.next s0 code m wraps
  generalize built_nodes h.next s0 code m wraps = l at hch hlen hfld
  cases l with
  | nil => simp at hlen
  | cons x rest =>
    have hrl : rest.length = wraps.length := by simpa using hlen
    have hx := hfld x (List.mem_cons_self _ _)
    have hm1 : h1.msg_text x.2.msg = some m := by rw [hx.2.1]; exact hmsg
    obtain ⟨tail, hn, hfmt⟩ := error_format_chain h1 p x rest m fuel hch hm1 (by omega)
    have hch2 := chain_store_head h1.nodes p x rest { x.2 with format_msg := some h1.next }
      tail hch rfl
    obtain ⟨h3, hfree, hu3, _, _, _⟩ := free_cached_head S
      { nodes := store h1.nodes p (some ({ x.2 with format_msg := some h1.next }, tail)),
        bufs := store h1.bufs h1.next
          (some ((chain_text m ((x :: rest).map Prod.snd)).map Cell.chr ++ [Cell.nul])),
        next := h1.next + 1,
        error_mem_usage := h1.error_mem_usage
          + (((chain_text m ((x :: rest).map Prod.snd)).length : Int) + 1) }
      p (p, { x.2 with format_msg := some h1.next }) rest h1.next
      (chain_text m ((x :: rest).map Prod.snd)) fuel hch2 rfl
      (buf_text_store h1 h1.next _ _ _ _)
      (fun y hy => (hfld y (List.mem_cons_of_mem _ hy)).2.2.2) (by omega)
    refine ⟨h1, p, _, h1.next, chain_text m ((x :: rest).map Prod.snd), h3, hb, hfmt,
      buf_text_store h1 h1.next _ _ _ _, hfree, ?_, ?_, ?_⟩
    · simp only [hu1]; ring
    · rw [hu3]; simp only [hrl, hx.2.2.1]; ring
    · rw [hu3]; simp only [hu1, hrl, hx.2.2.1]; ring

/-- C5 at a concrete input: the chain of Scenario A from the initial heap. -/
theorem C5_witness :
    [site_func2, site_func3].length + 1 ≤ 3 ∧
    ∃ (h1 : Heap) (p : Ptr) (h2 : Heap) (r : Ptr) (T : Text) (h3 : Heap),
      build 72 Heap.init site_func1 0 msg_func1 [site_func2, site_func3] = some (h1, p) ∧
      error_format 3 h1 (some p) = some (h2, some r) ∧
      h2.buf_text r = some T ∧
      error_free 72 3 h2 (some p) = some h3 ∧
      h2.error_mem_usage = Heap.init.error_mem_usage
        + (((72 : Nat) : Int) * ([site_func2, site_func3].length + 1)
            + ((msg_func1.length : Int) + 1) + ((T.length : Int) + 1)) ∧
      h3.error_mem_usage = h2.error_mem_usage
        - (((72 : Nat) : Int) * ([site_func2, site_func3].length + 1)
            + ((msg_func1.length : Int) + 1) + ((T.length : Int) + 1)) ∧
      h3.error_mem_usage = Heap.init.error_mem_usage :=
  ⟨by decide,
    C5_format_once_then_free_restores_counter 72 Heap.init site_func1 0 msg_func1
      [site_func2, site_func3] 3 (by decide)⟩

/-- C6: in a chain built by `error_new` followed by any number of `error_from`
calls, every node has the code, the message (the same buffer, holding the same
text) and the message length of the root node, which is the last of the
chain. -/
theorem C6_code_and_message_invariant (S : Nat) (h : Heap) (s0 : Site) (code : Int)
    (m : Text) (wraps : List Site) :
    ∃ (h1 : Heap) (p : Ptr) (l : List (Ptr × error_t)) (root : Ptr × error_t),
      build S h s0 code m wraps = some (h1, p) ∧
      Chain h1.nodes (some p) l ∧ l.length = wraps.length + 1 ∧
      l.getLast? = some root ∧
      root.2.code = code ∧ h1.msg_text root.2.msg = some m ∧ root.2.msglen = m.length ∧
      ∀ y ∈ l, y.2.code = root.2.code ∧ y.2.msg = root.2.msg ∧
        h1.msg_text y.2.msg = h1.msg_text root.2.msg ∧ y.2.msglen = root.2.msglen := by
  obtain ⟨h1, p, hb, hch, _, _, _, hmsg, _⟩ := build_chain S h s0 code m wraps
  have hlen := built_nodes_length h.next s0 code m wraps
  have hfld := built_nodes_fields h.next s0 code m wraps
  have hne : built_nodes h.next s0 code m wraps ≠ [] := wrap_list_ne_nil _ _ _ _
  have hlast := List.getLast?_eq_getLast _ hne
  have hmem := List.getLast_mem hne
  generalize (built_nodes h.next s0 code m wraps).getLast hne = root at hlast hmem
  have hr := hfld root hmem
  refine ⟨h1, p, _, root, hb, hch, hlen, hlast, hr.1, ?_, hr.2.2.1, ?_⟩
  · rw [hr.2.1]; exact hmsg
  · intro y hy
    have hy2 := hfld y hy
    exact ⟨by rw [hy2.1, hr.1], by rw [hy2.2.1, hr.2.1], by rw [hy2.2.1, hr.2.1],
      by rw [hy2.2.2.1, hr.2.2.1]⟩

/-- C7: for every chain, two `error_format` calls in a row on the same node both
return, and return the same text; the text cached by the first call does not
enter the second. -/
theorem C7_format_twice_same_text (h : Heap) (p : Ptr) (x : Ptr × error_t)
    (rest : List (Ptr × error_t)) (m : Text) (fuel : Nat)
    (hc : Chain h.nodes (some p) (x :: rest)) (hm : h.msg_text x.2.msg = some m)
    (hf : rest.length + 1 ≤ fuel) :
    ∃ (h1 : Heap) (r1 : Ptr) (h2 : Heap) (r2 : Ptr) (T : Text),
      error_format fuel h (some p) = some (h1, some r1) ∧
      error_format fuel h1 (some p) = some (h2, some r2) ∧
      h1.buf_text r1 = some T ∧ h2.buf_text r2 = some T := by
  obtain ⟨tail, hn, hfmt⟩ := error_format_chain h p x rest m fuel hc hm hf
  have hch2 := chain_store_head h.nodes p x rest { x.2 with format_msg := some h.next }
    tail hc rfl
  obtain ⟨tail2, _, hfmt2⟩ := error_format_chain
    { nodes := store h.nodes p (some ({ x.2 with format_msg := some h.next }, tail)),
      bufs := store h.bufs h.next
        (some ((chain_text m ((x :: rest).map Prod.snd)).map Cell.chr ++ [Cell.nul])),
      next := h.next + 1,
      error_mem_usage := h.error_mem_usage
        + (((chain_text m ((x :: rest).map Prod.snd)).length : Int) + 1) }
    p (p, { x.2 with format_msg := some h.next }) rest m fuel hch2
    (by rw [msg_text_store_tail h p x.2 _ tail _ _ _ hn]; exact hm) hf
  refine ⟨_, h.next, _, _, chain_text m ((x :: rest).map Prod.snd), hfmt, hfmt2,
    buf_text_store h h.next _ _ _ _, ?_⟩
  have := buf_text_store
    { nodes := store h.nodes p (some ({ x.2 with format_msg := some h.next }, tail)),
      bufs := store h.bufs h.next
        (some ((chain_text m ((x :: rest).map Prod.snd)).map Cell.chr ++ [Cell.nul])),
      next := h.next + 1,
      error_mem_usage := h.error_mem_usage
        + (((chain_text m ((x :: rest).map Prod.snd)).length : Int) + 1) }
    (h.next + 1) (chain_text m ((x :: rest).map Prod.snd))
  simpa [chain_text] using this _ _ _

/-- C7 at a concrete input: the two-node chain of `sample_heap`. -/
theorem C7_witness :
    Chain sample_heap.nodes (some 1) [(1, sample_outer), (0, sample_root)] ∧
    sample_heap.msg_text sample_outer.msg = some msg_func1 ∧
    [(0, sample_root)].length + 1 ≤ 2 ∧
    ∃ (h1 : Heap) (r1 : Ptr) (h2 : Heap) (r2 : Ptr) (T : Text),
      error_format 2 sample_heap (some 1) = some (h1, some r1) ∧
      error_format 2 h1 (some 1) = some (h2, some r2) ∧
      h1.buf_text r1 = some T ∧ h2.buf_text r2 = some T :=
  ⟨⟨rfl, ⟨_, rfl⟩, rfl, ⟨_, rfl⟩, trivial⟩, by decide, by decide,
    C7_format_twice_same_text sample_heap 1 (1, sample_outer) [(0, sample_root)] msg_func1 2
      ⟨rfl, ⟨_, rfl⟩, rfl, ⟨_, rfl⟩, trivial⟩ (by decide) (by decide)⟩

/-- C8 (as stated, refuted): a second `error_format` call on the value of `func1`
returns another buffer than the first (2, not 1) and raises the counter from
143 to 191, so it does allocate. -/
theorem C8_counterexample :
    (format_twice 1 (func1 72 Heap.init)).map
        (fun t => (t.2.1, t.1.error_mem_usage, t.2.2.2, t.2.2.1.error_mem_usage))
      = some (some 1, 143, some 2, 191) := by
  decide

/-- C8 (amended): when the node already holds a cached text and the chain is
unchanged, a further `error_format` call does not reuse the cache: it computes
the text again into a newly allocated buffer, returns that buffer, whose text
equals the cached one, and makes it the cached text of the node. -/
theorem C8_format_again_recomputes (h : Heap) (p : Ptr) (x : Ptr × error_t)
    (rest : List (Ptr × error_t)) (m : Text) (fuel : Nat) (b0 : Ptr)
    (hc : Chain h.nodes (some p) (x :: rest)) (hm : h.msg_text x.2.msg = some m)
    (hf : rest.length + 1 ≤ fuel) (hx : x.2.format_msg = some b0)
    (hb : h.buf_text b0 = some (chain_text m ((x :: rest).map Prod.snd)))
    (hlt : b0 < h.next) :
    ∃ (h2 : Heap) (e2 : error_t) (tail : List Cell),
      error_format fuel h (some p) = some (h2, some h.next) ∧
      h.next ≠ b0 ∧ h2.next = h.next + 1 ∧
      h2.buf_text h.next = h.buf_text b0 ∧
      h2.nodes p = some (e2, tail) ∧ e2.format_msg = some h.next ∧
      e2.format_msg ≠ x.2.format_msg := by
  obtain ⟨tail, _, hfmt⟩ := error_format_chain h p x rest m fuel hc hm hf
  refine ⟨_, { x.2 with format_msg := some h.next }, tail, hfmt, Nat.ne_of_gt hlt, rfl, ?_,
    store_same _ _ _, rfl, ?_⟩
  · rw [hb]
    exact buf_text_store h h.next _ _ _ _
  · rw [hx]
    exact fun heq => Nat.ne_of_gt hlt (Option.some.inj heq)

/-- C8 (amended) at a concrete input: the chain of `sample_cached_heap`, whose
outermost node holds a cached text in buffer 2. -/
theorem C8_witness :
    Chain sample_cached_heap.nodes (some 1) [(1, sample_cached_outer), (0, sample_root)] ∧
    sample_cached_heap.msg_text sample_cached_outer.msg = some msg_func1 ∧
    [(0, sample_root)].length + 1 ≤ 2 ∧
    sample_cached_outer.format_msg = some 2 ∧
    sample_cached_heap.buf_text 2
      = some (chain_text msg_func1
          ([(1, sample_cached_outer), (0, sample_root)].map Prod.snd)) ∧
    2 < sample_cached_heap.next ∧
    ∃ (h2 : Heap) (e2 : error_t) (tail : List Cell),
      error_format 2 sample_cached_heap (some 1) = some (h2, some sample_cached_heap.next) ∧
      sample_cached_heap.next ≠ 2 ∧ h2.next = sample_cached_heap.next + 1 ∧
      h2.buf_text sample_cached_heap.next = sample_cached_heap.buf_text 2 ∧
      h2.nodes 1 = some (e2, tail) ∧ e2.format_msg = some sample_cached_heap.next ∧
      e2.format_msg ≠ sample_cached_outer.format_msg :=
  ⟨⟨rfl, ⟨_, rfl⟩, rfl, ⟨_, rfl⟩, trivial⟩, by decide, by decide, rfl, by decide, by decide,
    C8_format_again_recomputes sample_cached_heap 1 (1, sample_cached_outer)
      [(0, sample_root)] msg_func1 2 2 ⟨rfl, ⟨_, rfl⟩, rfl, ⟨_, rfl⟩, trivial⟩ (by decide)
      (by decide) rfl (by decide) (by decide)⟩

/-- C9: `error_free` on the absent value returns at once and leaves the heap, the
counter included, as it was. -/
theorem C9_free_of_noerror_is_noop (S fuel : Nat) (h : Heap) :
    error_free S fuel h none = some h := by
  cases fuel <;> rfl

/-- C10: when the innermost routine returns `noerror`, every enclosing `error_try`
frame passes `noerror` on and leaves the heap the innermost routine returned
untouched: no `error_from`, no allocation.  With `func1_noerror` innermost the
heap, and so the counter, is the one at entry, whatever the number of frames;
this holds for `func2_noerror` in particular. -/
theorem C10_noerror_propagates (S : Nat) (inner : Heap → Option (Heap × Option Ptr))
    (frames : List Site) (h h1 : Heap) (hin : inner h = some (h1, none)) :
    call_path S inner frames h = some (h1, none) ∧
    (∀ h0 : Heap, call_path S func1_noerror frames h0 = some (h0, none)) ∧
    (∀ h0 : Heap, func2_noerror S h0 = some (h0, none)) ∧
    (call_path S func1_noerror frames Heap.init).map (fun r => (r.1.error_mem_usage, r.2))
      = some (0, none) := by
  refine ⟨call_path_noerror S frames inner h h1 hin,
    fun h0 => call_path_noerror S frames func1_noerror h0 h0 rfl, fun h0 => rfl, ?_⟩
  rw [call_path_noerror S frames func1_noerror Heap.init Heap.init rfl]
  rfl

/-- C10 at a concrete input: two frames around `func1_noerror` from the initial heap. -/
theorem C10_witness :
    func1_noerror Heap.init = some (Heap.init, none) ∧
    call_path 72 func1_noerror [site_func2_noerror, site_func3] Heap.init
      = some (Heap.init, none) :=
  ⟨rfl, (C10_noerror_propagates 72 func1_noerror [site_func2_noerror, site_func3]
    Heap.init Heap.init rfl).1⟩

/-! ## Wrapping and creating -/

theorem chain_mem_nodes (nodes : Ptr → Option (error_t × List Cell)) :
    ∀ (l : List (Ptr × error_t)) (c : Option Ptr) (y : Ptr × error_t),
      Chain nodes c l → y ∈ l → ∃ tail, nodes y.1 = some (y.2, tail) := by
  intro l
  induction l with
  | nil => intro c y _ hy; simp at hy
  | cons x xs ih =>
    intro c y hc hy
    cases c with
    | none => simp [Chain] at hc
    | some p =>
      simp only [Chain] at hc
      rcases List.mem_cons.mp hy with h1 | h2
      · rw [h1, ← hc.1]; exact hc.2.1
      · exact ih _ y hc.2.2 h2

theorem msg_text_store_fresh (h : Heap) (a : Ptr) (e2 : error_t)
    (bufs : Ptr → Option (List Cell)) (n : Ptr) (u : Int) (hfresh : h.nodes a = none)
    (q : Ptr) :
    Heap.msg_text { nodes := store h.nodes a (some (e2, [])), bufs := bufs, next := n,
                    error_mem_usage := u } q = h.msg_text q := by
  by_cases hq : q = a
  · simp [Heap.msg_text, store, hq, hfresh, cstr]
  · simp [Heap.msg_text, store, hq]

/-- C11: for every present node `e` (stored at `p`, heading a chain `l`) and every
call site, `error_from_` returns a new node whose `from` is `p`, whose code,
message pointer (and the text behind it) and message length are those of `e`,
whose location is the given call site, and whose `format_msg` and `user_data`
are null; the chain from the new node is the new node followed by `l`, and
every node that existed before, `e` and the nodes below it included, is
unchanged.  The allocator hands out a name not in use (`hfresh`). -/
theorem C11_error_from_wraps (S : Nat) (h : Heap) (filename : Text) (line : Int)
    (funcname : Text) (p : Ptr) (e : error_t) (l : List (Ptr × error_t))
    (hc : Chain h.nodes (some p) ((p, e) :: l)) (hfresh : h.nodes h.next = none) :
    ∃ (h2 : Heap) (r : Ptr) (w : error_t),
      error_from_ S h filename line funcname (some p) = some (h2, r) ∧
      h2.nodes r = some (w, []) ∧
      w.«from» = some p ∧ w.code = e.code ∧ w.msg = e.msg ∧ w.msglen = e.msglen ∧
      h2.msg_text w.msg = h.msg_text e.msg ∧
      w.filename = filename ∧ w.line = line ∧ w.funcname = funcname ∧
      w.format_msg = none ∧ w.user_data = none ∧
      Chain h2.nodes (some r) ((r, w) :: (p, e) :: l) ∧
      ((r, w) :: (p, e) :: l).length = ((p, e) :: l).length + 1 ∧
      (∀ y ∈ (p, e) :: l, h2.nodes y.1 = h.nodes y.1) ∧
      (∀ q, h.nodes q ≠ none → h2.nodes q = h.nodes q) ∧
      h2.bufs = h.bufs ∧
      h2.error_mem_usage = h.error_mem_usage + (S : Int) := by
  obtain ⟨tail, hn⟩ := chain_mem_nodes h.nodes _ _ (p, e) hc (List.mem_cons_self _ _)
  have hstep := error_from_eq S h ⟨filename, line, funcname⟩ p e tail hn
  have hold : ∀ q, h.nodes q ≠ none →
      store h.nodes h.next (some (wrapper ⟨filename, line, funcname⟩ p e, [])) q
        = h.nodes q := by
    intro q hq
    have : q ≠ h.next := fun hqn => hq (by rw [hqn]; exact hfresh)
    simp [store, this]
  have hne : ∀ y ∈ (p, e) :: l, y.1 ≠ h.next := by
    intro y hy hyn
    obtain ⟨t, hy2⟩ := chain_mem_nodes h.nodes _ _ y hc hy
    rw [hyn, hfresh] at hy2
    exact Option.noConfusion hy2
  refine ⟨_, h.next, wrapper ⟨filename, line, funcname⟩ p e, hstep, store_same _ _ _,
    rfl, rfl, rfl, rfl, ?_, rfl, rfl, rfl, rfl, rfl, ?_, by simp, ?_, hold, rfl, rfl⟩
  · exact msg_text_store_fresh h h.next _ _ _ _ hfresh _
  · apply chain_cons_intro _ _ _ []
    · exact store_same _ _ _
    · exact chain_store _ _ _ _ _ hc hne
  · intro y hy
    obtain ⟨t, hy2⟩ := chain_mem_nodes h.nodes _ _ y hc hy
    exact hold y.1 (by rw [hy2]; exact Option.some_ne_none _)

/-- C11 at a concrete input: wrapping the two-node chain of `sample_heap` at the
call site of `func3`. -/
theorem C11_witness :
    Chain sample_heap.nodes (some 1) [(1, sample_outer), (0, sample_root)] ∧
    sample_heap.nodes sample_heap.next = none ∧
    ∃ (h2 : Heap) (r : Ptr) (w : error_t),
      error_from_ 72 sample_heap file_name 158 "func3".toList (some 1) = some (h2, r) ∧
      h2.nodes r = some (w, []) ∧
      w.«from» = some 1 ∧ w.code = sample_outer.code ∧ w.msg = sample_outer.msg ∧
      w.msglen = sample_outer.msglen ∧
      h2.msg_text w.msg = sample_heap.msg_text sample_outer.msg ∧
      w.filename = file_name ∧ w.line = 158 ∧ w.funcname = "func3".toList ∧
      w.format_msg = none ∧ w.user_data = none ∧
      Chain h2.nodes (some r) [(r, w), (1, sample_outer), (0, sample_root)] ∧
      [(r, w), (1, sample_outer), (0, sample_root)].length
        = [(1, sample_outer), (0, sample_root)].length + 1 ∧
      (∀ y ∈ [(1, sample_outer), (0, sample_root)], h2.nodes y.1 = sample_heap.nodes y.1) ∧
      (∀ q, sample_heap.nodes q ≠ none → h2.nodes q = sample_heap.nodes q) ∧
      h2.bufs = sample_heap.bufs ∧
      h2.error_mem_usage = sample_heap.error_mem_usage + ((72 : Nat) : Int) :=
  ⟨⟨rfl, ⟨_, rfl⟩, rfl, ⟨_, rfl⟩, trivial⟩, rfl,
    C11_error_from_wraps 72 sample_heap file_name 158 "func3".toList 1 sample_outer
      [(0, sample_root)] ⟨rfl, ⟨_, rfl⟩, rfl, ⟨_, rfl⟩, trivial⟩ rfl⟩

theorem call_path_none (S : Nat) (frames : List Site) :
    ∀ (inner : Heap → Option (Heap × Option Ptr)) (h : Heap),
      inner h = none → call_path S inner frames h = none := by
  induction frames with
  | nil => intro inner h hin; exact hin
  | cons s ss ih =>
    intro inner h hin
    simp only [call_path]
    apply ih
    simp [frame, error_try, hin]

theorem call_path_wrap (S : Nat) (frames : List Site) :
    ∀ (inner : Heap → Option (Heap × Option Ptr)) (h h1 : Heap) (p : Ptr),
      inner h = some (h1, some p) →
      call_path S inner frames h
        = (wrap_all S frames (h1, p)).map (fun x => (x.1, some x.2)) := by
  induction frames with
  | nil => intro inner h h1 p hin; simpa [call_path, wrap_all] using hin
  | cons s ss ih =>
    intro inner h h1 p hin
    simp only [call_path, wrap_all]
    cases hfrom : error_from S h1 s (some p) with
    | none =>
      simp only [Option.map_none']
      apply call_path_none
      simp [frame, error_try, hin, hfrom]
    | some x =>
      simp only []
      apply ih
      simp [frame, error_try, hin, hfrom]

/-- C12: when the innermost frame creates an error with `error_new` and each of k
enclosing frames propagates it with `error_try`, the outermost frame returns a
chain of exactly k+1 nodes whose call sites, from the outermost node to the
root, are those of the frames from the outermost down to the creating one.
`func3` is such a path with k = 2. -/
theorem C12_propagation_builds_chain (S : Nat) (h : Heap) (s0 : Site) (code : Int)
    (m : Text) (frames : List Site) :
    (∃ (h1 : Heap) (p : Ptr) (l : List (Ptr × error_t)),
      call_path S (create_frame S s0 code m) frames h = some (h1, some p) ∧
      Chain h1.nodes (some p) l ∧ l.length = frames.length + 1 ∧
      l.map (fun y => y.2.site) = frames.reverse ++ [s0]) ∧
    func3 S h
      = call_path S (create_frame S site_func1 0 msg_func1) [site_func2, site_func3] h := by
  refine ⟨?_, rfl⟩
  obtain ⟨h2, p2, hb, hch, _⟩ := build_chain S h s0 code m frames
  have hnew := error_new_eq S h s0 code m
  have hcf : create_frame S s0 code m h
      = some ({ nodes := store h.nodes h.next
                  (some (root_node h.next s0 code m, m.map Cell.chr ++ [Cell.nul])),
                bufs := h.bufs, next := h.next + 1,
                error_mem_usage := h.error_mem_usage + ((S : Int) + m.length + 1) },
              some h.next) := by
    simp only [create_frame, hnew]
  refine ⟨h2, p2, built_nodes h.next s0 code m frames, ?_, hch,
    built_nodes_length _ _ _ _ _, built_nodes_sites _ _ _ _ _⟩
  rw [call_path_wrap S frames _ h _ _ hcf]
  simp only [build, hnew] at hb
  rw [hb]
  rfl

theorem snprintf_stores (b : List Cell) (pos size : Nat) (s : Text) (hs : size ≠ 0)
    (hfit : pos + (s.take (size - 1)).length + 1 ≤ b.length) :
    snprintf (some b) pos size s
      = some (some (b.take pos ++ (s.take (size - 1)).map Cell.chr
            ++ Cell.nul :: b.drop (pos + (s.take (size - 1)).length + 1)), s.length) := by
  simp only [snprintf, hs, if_false, List.length_append, List.length_map,
    List.length_singleton]
  rw [if_pos (by omega)]
  simp [Nat.add_assoc]

theorem error_new__eq (S : Nat) (h : Heap) (filename : Text) (line : Int) (funcname : Text)
    (code : Int) (m m2 : Text) :
    error_new_ S h filename line funcname code m m2
      = some ({ nodes := store h.nodes h.next
                  (some (root_node h.next ⟨filename, line, funcname⟩ code m,
                    (m2.take m.length).map Cell.chr ++ Cell.nul ::
                      (List.replicate (m.length + 1) Cell.nul).drop
                        ((m2.take m.length).length + 1))),
                bufs := h.bufs, next := h.next + 1,
                error_mem_usage := h.error_mem_usage + ((S : Int) + m.length + 1) },
              h.next) := by
  have hst := snprintf_stores (List.replicate (m.length + 1) Cell.nul) 0 (m.length + 1) m2
    (by omega)
    (by
      have := List.length_take_le m.length m2
      simp only [Nat.add_sub_cancel, List.length_replicate]
      omega)
  simp only [List.take_zero, List.nil_append, Nat.zero_add, Nat.add_sub_cancel] at hst
  simp only [error_new_, snprintf_size_zero, hst, root_node]

/-- C13 (the code misses the claim): `error_new_` returns a root node with the
given code and call site, `msglen` equal to the length of the text `m` the
sizing call renders, a buffer of `length m + 1` bytes and the counter raised by
the node size plus `length m + 1`; but the message it stores is what the fill
call renders from the used `va_list`, cut to the length of `m`.  It is `m` in
full when the fill call renders `m` again, as for a format that fetches no
argument.  For `error_new_(.., 7, "code %d", 42)` with the fill call fetching 0
the stored message is `code 0` while `msglen` is 7. -/
theorem C13_error_new_stores_fill_rendering (S : Nat) (h : Heap) (filename : Text)
    (line : Int) (funcname : Text) (code : Int) (m m2 : Text) :
    (∃ (h2 : Heap) (r : Ptr) (e : error_t) (tail : List Cell),
      error_new_ S h filename line funcname code m m2 = some (h2, r) ∧
      h2.nodes r = some (e, tail) ∧
      e.«from» = none ∧ e.code = code ∧
      e.filename = filename ∧ e.line = line ∧ e.funcname = funcname ∧
      tail.length = m.length + 1 ∧ cstr tail = some (m2.take m.length) ∧
      h2.msg_text e.msg = some (m2.take m.length) ∧
      e.msglen = m.length ∧ e.format_msg = none ∧ e.user_data = none ∧
      h2.error_mem_usage = h.error_mem_usage + ((S : Int) + m.length + 1) ∧
      Chain h2.nodes (some r) [(r, e)] ∧
      (∀ q, q ≠ r → h2.nodes q = h.nodes q) ∧ h2.bufs = h.bufs) ∧
    (∃ (h2 : Heap) (r : Ptr) (e : error_t) (tail : List Cell),
      error_new_ S h filename line funcname code m m = some (h2, r) ∧
      h2.nodes r = some (e, tail) ∧ cstr tail = some m ∧ e.msglen = m.length) ∧
    (error_new_ 72 Heap.init file_name 149 "func1".toList 7 "code 42".toList
        "code 0".toList).bind
        (fun x => (x.1.nodes x.2).map fun v => (v.1.msglen, cstr v.2))
      = some (7, some "code 0".toList) := by
  have hlen : ((m2.take m.length).map Cell.chr ++ Cell.nul ::
      (List.replicate (m.length + 1) Cell.nul).drop ((m2.take m.length).length + 1)).length
      = m.length + 1 := by
    have := List.length_take_le m.length m2
    simp only [List.length_append, List.length_map, List.length_cons, List.length_drop,
      List.length_replicate]
    omega
  refine ⟨⟨_, h.next, root_node h.next ⟨filename, line, funcname⟩ code m, _,
    error_new__eq S h filename line funcname code m m2, store_same _ _ _, rfl, rfl, rfl, rfl,
    rfl, hlen, cstr_cells _ _, ?_, rfl, rfl, rfl, rfl, ?_, ?_, rfl⟩, ?_, by decide⟩
  · simp only [Heap.msg_text, root_node, store_same]
    exact cstr_cells _ _
  · apply chain_cons_intro _ _ _ _
    · exact store_same _ _ _
    · simp [root_node, Chain]
  · intro q hq
    simp [store, hq]
  · refine ⟨_, h.next, root_node h.next ⟨filename, line, funcname⟩ code m, _,
      error_new__eq S h filename line funcname code m m, store_same _ _ _, ?_, rfl⟩
    rw [cstr_cells, List.take_length]

/-! ## Which nodes hold a cached text -/

theorem error_new_keeps_caches (S : Nat) (h h2 : Heap) (s : Site) (code : Int) (m : Text)
    (r : Ptr) (hrun : error_new S h s code m = some (h2, r)) (q : Ptr) (e : error_t)
    (t : List Cell) (hq : h2.nodes q = some (e, t)) (hfm : e.format_msg ≠ none) :
    h.nodes q = some (e, t) := by
  rw [error_new_eq] at hrun
  have hh := congrArg Prod.fst (Option.some.inj hrun)
  simp only at hh
  subst hh
  by_cases hqn : q = h.next
  · subst hqn
    simp only [store_same] at hq
    have he : e = root_node h.next s code m := by
      have := congrArg Prod.fst (Option.some.inj hq)
      exact this.symm
    rw [he] at hfm
    exact absurd rfl hfm
  · simpa [store, hqn] using hq

theorem error_from_keeps_caches (S : Nat) (h h2 : Heap) (s : Site) (err : Option Ptr)
    (r : Ptr) (hrun : error_from S h s err = some (h2, r)) (q : Ptr) (e : error_t)
    (t : List Cell) (hq : h2.nodes q = some (e, t)) (hfm : e.format_msg ≠ none) :
    h.nodes q = some (e, t) := by
  cases err with
  | none => simp [error_from, error_from_] at hrun
  | some p =>
    cases hn : h.nodes p with
    | none => simp [error_from, error_from_, hn] at hrun
    | some v =>
      obtain ⟨e0, t0⟩ := v
      rw [error_from_eq S h s p e0 t0 hn] at hrun
      have hh := congrArg Prod.fst (Option.some.inj hrun)
      simp only at hh
      subst hh
      by_cases hqn : q = h.next
      · subst hqn
        simp only [store_same] at hq
        have he : e = wrapper s p e0 := by
          have := congrArg Prod.fst (Option.some.inj hq)
          exact this.symm
        rw [he] at hfm
        exact absurd rfl hfm
      · simpa [store, hqn] using hq

theorem error_format_keeps_caches (fuel : Nat) (h h2 : Heap) (err r : Option Ptr)
    (hrun : error_format fuel h err = some (h2, r)) (q : Ptr) (e : error_t)
    (t : List Cell) (hq : h2.nodes q = some (e, t)) :
    h.nodes q = some (e, t) ∨ err = some q := by
  cases err with
  | none =>
    simp only [error_format] at hrun
    have hh := congrArg Prod.fst (Option.some.inj hrun)
    simp only at hh
    subst hh
    exact Or.inl hq
  | some p =>
    by_cases hqp : q = p
    · right; rw [hqp]
    · left
      simp only [error_format] at hrun
      split at hrun
      · exact absurd hrun (by simp)
      · split at hrun
        · exact absurd hrun (by simp)
        · exact absurd hrun (by simp)
        · split at hrun
          · exact absurd hrun (by simp)
          · have hh := congrArg Prod.fst (Option.some.inj hrun)
            simp only at hh
            subst hh
            simpa [store, hqp] using hq

theorem error_free_loop_keeps (S : Nat) (err : Option Ptr) :
    ∀ (fuel : Nat) (h h2 : Heap) (c : Option Ptr),
      error_free_loop S err fuel h c = some h2 →
      ∀ (q : Ptr) (v : error_t × List Cell), h2.nodes q = some v → h.nodes q = some v := by
  intro fuel
  induction fuel with
  | zero =>
    intro h h2 c hrun q v hq
    cases c with
    | none =>
      simp only [error_free_loop] at hrun
      rw [← Option.some.inj hrun] at hq
      exact hq
    | some p => simp [error_free_loop] at hrun
  | succ fuel ih =>
    intro h h2 c hrun q v hq
    cases c with
    | none =>
      simp only [error_free_loop] at hrun
      rw [← Option.some.inj hrun] at hq
      exact hq
    | some p =>
      simp only [error_free_loop] at hrun
      split at hrun
      · exact absurd hrun (by simp)
      · split at hrun
        · have := ih _ _ _ hrun q v hq
          simp only [store] at this
          split at this
          · exact absurd this (by simp)
          · exact this
        · split at hrun
          · exact absurd hrun (by simp)
          · have := ih _ _ _ hrun q v hq
            simp only [store] at this
            split at this
            · exact absurd this (by simp)
            · exact this

theorem run_caches (S fuel : Nat) :
    ∀ (ops : List Op) (h h2 : Heap) (P : Ptr → Prop),
      (∀ q e t, h.nodes q = some (e, t) → e.format_msg ≠ none → P q) →
      run S fuel ops h = some h2 →
      ∀ q e t, h2.nodes q = some (e, t) → e.format_msg ≠ none →
        P q ∨ Op.format (some q) ∈ ops := by
  intro ops
  induction ops with
  | nil =>
    intro h h2 P hP hrun q e t hq hfm
    simp only [run] at hrun
    rw [← Option.some.inj hrun] at hq
    exact Or.inl (hP q e t hq hfm)
  | cons op ops ih =>
    intro h h2 P hP hrun q e t hq hfm
    simp only [run] at hrun
    cases hstep : op.step S fuel h with
    | none => simp [hstep] at hrun
    | some h1 =>
      simp only [hstep] at hrun
      have hinv : ∀ q e t, h1.nodes q = some (e, t) → e.format_msg ≠ none →
          P q ∨ op = Op.format (some q) := by
        intro q e t hq1 hfm1
        cases op with
        | new s code m =>
          simp only [Op.step] at hstep
          cases hr : error_new S h s code m with
          | none => simp [hr] at hstep
          | some x =>
            obtain ⟨hx, rx⟩ := x
            simp only [hr, Option.map_some'] at hstep
            have hx1 : hx = h1 := Option.some.inj hstep
            subst hx1
            exact Or.inl (hP q e t (error_new_keeps_caches S h _ s code m rx hr q e t hq1 hfm1)
              hfm1)
        | wrap s err =>
          simp only [Op.step] at hstep
          cases hr : error_from S h s err with
          | none => simp [hr] at hstep
          | some x =>
            obtain ⟨hx, rx⟩ := x
            simp only [hr, Option.map_some'] at hstep
            have hx1 : hx = h1 := Option.some.inj hstep
            subst hx1
            exact Or.inl (hP q e t (error_from_keeps_caches S h _ s err rx hr q e t hq1 hfm1)
              hfm1)
        | format err =>
          simp only [Op.step] at hstep
          cases hr : error_format fuel h err with
          | none => simp [hr] at hstep
          | some x =>
            obtain ⟨hx, rx⟩ := x
            simp only [hr, Option.map_some'] at hstep
            have hx1 : hx = h1 := Option.some.inj hstep
            subst hx1
            rcases error_format_keeps_caches fuel h _ err rx hr q e t hq1 with h3 | h4
            · exact Or.inl (hP q e t h3 hfm1)
            · exact Or.inr (by rw [h4])
        | free err =>
          simp only [Op.step, error_free] at hstep
          exact Or.inl (hP q e t (error_free_loop_keeps S err fuel h h1 err hstep q (e, t) hq1)
            hfm1)
      rcases ih h1 h2 (fun q => P q ∨ op = Op.format (some q)) hinv hrun q e t hq hfm with h5 | h6
      · rcases h5 with h7 | h8
        · exact Or.inl h7
        · exact Or.inr (by rw [h8]; exact List.mem_cons_self _ _)
      · exact Or.inr (List.mem_cons_of_mem _ h6)

/-- C14: `error_format(e)` caches its result on `e` only.  Afterwards `e` points to
the returned buffer, which holds the formatted text; the other fields of `e`
and its message bytes are as before; every other node (cached-text pointer
included), every buffer that existed and every message text are unchanged, so
the chain is the same chain.  And in any run of calls from the initial heap, a
node whose `format_msg` is not null is one `error_format` was called on. -/
theorem C14_format_caches_on_its_node (h : Heap) (p : Ptr) (x : Ptr × error_t)
    (rest : List (Ptr × error_t)) (m : Text) (fuel : Nat)
    (hc : Chain h.nodes (some p) (x :: rest)) (hm : h.msg_text x.2.msg = some m)
    (hf : rest.length + 1 ≤ fuel) (hfresh : h.bufs h.next = none) :
    (∃ (h2 : Heap) (r : Ptr) (e2 : error_t) (tail : List Cell),
      error_format fuel h (some p) = some (h2, some r) ∧
      h.nodes p = some (x.2, tail) ∧ h2.nodes p = some (e2, tail) ∧
      e2.format_msg = some r ∧
      h2.buf_text r = some (chain_text m ((x :: rest).map Prod.snd)) ∧
      e2.code = x.2.code ∧ e2.msg = x.2.msg ∧ e2.msglen = x.2.msglen ∧
      e2.filename = x.2.filename ∧ e2.line = x.2.line ∧ e2.funcname = x.2.funcname ∧
      e2.user_data = x.2.user_data ∧ e2.«from» = x.2.«from» ∧
      (∀ q, q ≠ p → h2.nodes q = h.nodes q) ∧
      (∀ y ∈ rest, h2.nodes y.1 = h.nodes y.1) ∧
      (∀ b, h.bufs b ≠ none → h2.bufs b = h.bufs b) ∧
      (∀ q, h2.msg_text q = h.msg_text q) ∧
      Chain h2.nodes (some p) ((p, e2) :: rest)) ∧
    (∀ (S fuel2 : Nat) (ops : List Op) (hh : Heap), run S fuel2 ops Heap.init = some hh →
      ∀ (q : Ptr) (e : error_t) (t : List Cell), hh.nodes q = some (e, t) →
        e.format_msg ≠ none → Op.format (some q) ∈ ops) := by
  constructor
  · obtain ⟨tail, hn, hfmt⟩ := error_format_chain h p x rest m fuel hc hm hf
    have hac := chain_acyclic h.nodes p x rest hc
    have hothers : ∀ q, q ≠ p →
        store h.nodes p (some ({ x.2 with format_msg := some h.next }, tail)) q
          = h.nodes q := by
      intro q hq
      simp [store, hq]
    refine ⟨_, h.next, { x.2 with format_msg := some h.next }, tail, hfmt, hn,
      store_same _ _ _, rfl, buf_text_store h h.next _ _ _ _, rfl, rfl, rfl, rfl, rfl, rfl,
      rfl, rfl, hothers, fun y hy => hothers y.1 (hac y hy), ?_, ?_, ?_⟩
    · intro b hb
      have : b ≠ h.next := fun hbn => hb (by rw [hbn]; exact hfresh)
      simp [store, this]
    · intro q
      exact msg_text_store_tail h p x.2 _ tail _ _ _ hn q
    · exact chain_store_head h.nodes p x rest _ tail hc rfl
  · intro S fuel2 ops hh hrun q e t hq hfm
    rcases run_caches S fuel2 ops Heap.init hh (fun _ => False)
      (by intro q e t hq0; simp [Heap.init] at hq0) hrun q e t hq hfm with h1 | h2
    · exact absurd h1 id
    · exact h2

/-- C14 at a concrete input: the two-node chain of `sample_heap`. -/
theorem C14_witness :
    Chain sample_heap.nodes (some 1) [(1, sample_outer), (0, sample_root)] ∧
    sample_heap.msg_text sample_outer.msg = some msg_func1 ∧
    [(0, sample_root)].length + 1 ≤ 2 ∧
    sample_heap.bufs sample_heap.next = none ∧
    (∃ (h2 : Heap) (r : Ptr) (e2 : error_t) (tail : List Cell),
      error_format 2 sample_heap (some 1) = some (h2, some r) ∧
      sample_heap.nodes 1 = some (sample_outer, tail) ∧ h2.nodes 1 = some (e2, tail) ∧
      e2.format_msg = some r ∧
      h2.buf_text r = some (chain_text msg_func1 [sample_outer, sample_root]) ∧
      e2.code = sample_outer.code ∧ e2.msg = sample_outer.msg ∧
      e2.msglen = sample_outer.msglen ∧
      e2.filename = sample_outer.filename ∧ e2.line = sample_outer.line ∧
      e2.funcname = sample_outer.funcname ∧
      e2.user_data = sample_outer.user_data ∧ e2.«from» = sample_outer.«from» ∧
      (∀ q, q ≠ 1 → h2.nodes q = sample_heap.nodes q) ∧
      (∀ y ∈ [((0 : Ptr), sample_root)], h2.nodes y.1 = sample_heap.nodes y.1) ∧
      (∀ b, sample_heap.bufs b ≠ none → h2.bufs b = sample_heap.bufs b) ∧
      (∀ q, h2.msg_text q = sample_heap.msg_text q) ∧
      Chain h2.nodes (some 1) [(1, e2), (0, sample_root)]) ∧
    ∃ (hh : Heap) (e : error_t) (t : List Cell),
      run 72 2 [Op.new site_func1 0 msg_func1, Op.wrap site_func2 (some 0),
          Op.format (some 1)] Heap.init = some hh ∧
      hh.nodes 1 = some (e, t) ∧ e.format_msg = some 2 ∧
      Op.format (some 1) ∈ [Op.new site_func1 0 msg_func1, Op.wrap site_func2 (some 0),
          Op.format (some 1)] :=
  ⟨⟨rfl, ⟨_, rfl⟩, rfl, ⟨_, rfl⟩, trivial⟩, by decide, by decide, rfl,
    (C14_format_caches_on_its_node sample_heap 1 (1, sample_outer) [(0, sample_root)]
      msg_func1 2 ⟨rfl, ⟨_, rfl⟩, rfl, ⟨_, rfl⟩, trivial⟩ (by decide) (by decide) rfl).1,
    by
      refine ⟨_, _, _, rfl, rfl, rfl, ?_⟩
      exact (C14_format_caches_on_its_node sample_heap 1 (1, sample_outer) [(0, sample_root)]
        msg_func1 2 ⟨rfl, ⟨_, rfl⟩, rfl, ⟨_, rfl⟩, trivial⟩ (by decide) (by decide) rfl).2
        72 2 [Op.new site_func1 0 msg_func1, Op.wrap site_func2 (some 0), Op.format (some 1)]
        _ rfl 1 _ _ rfl (Option.some_ne_none 2)⟩

/-! ## Occurrences of the message in the formatted text -/

theorem starts_with_append (m r : Text) : starts_with m (m ++ r) = true := by
  induction m with
  | nil => rfl
  | cons c cs ih => simp [starts_with, ih]

theorem occurrences_nil_pos (t : Text) : 1 ≤ occurrences [] t := by
  cases t with
  | nil => simp [occurrences, starts_with]
  | cons c cs => simp [occurrences, starts_with]

theorem occurrences_one_iff (m out : Text) (hne : out ≠ []) (hs : starts_with m out = true) :
    1 ≤ occurrences m out ∧
    (occurrences m out = 1 ↔ m ≠ [] ∧ occurrences m (out.drop 1) = 0) := by
  cases out with
  | nil => exact absurd rfl hne
  | cons c cs =>
    have hocc : occurrences m (c :: cs) = 1 + occurrences m cs := by
      simp [occurrences, hs]
    rw [hocc, List.drop_succ_cons, List.drop_zero]
    refine ⟨Nat.le_add_right _ _, ?_, ?_⟩
    · intro h1
      have hk : occurrences m cs = 0 := by omega
      refine ⟨?_, hk⟩
      intro hm
      have := occurrences_nil_pos cs
      rw [hm] at hk
      omega
    · intro h2
      rw [h2.2]

/-- C15 (as stated, refuted): when `func1` creates the error with the message
`func1`, the formatted text `func1; at func1 (error.c:149);` contains the
message text twice. -/
theorem C15_counterexample :
    returned_text (format_result 1 (create_frame 72 site_func1 0 "func1".toList Heap.init))
      = some "func1; at func1 (error.c:149);".toList ∧
    occurrences "func1".toList "func1; at func1 (error.c:149);".toList = 2 := by
  decide

/-- C15 (amended): for every chain built by `error_new` followed by N `error_from`
calls, the output of `error_format` starts with the message text, which is
printed once: what follows it is `; at` and the N+1 location segments, made
from the call sites alone.  The message text occurs exactly once in the output
if and only if it is not empty and does not occur again behind the first
character of the output. -/
theorem C15_message_printed_once_at_start (S : Nat) (h : Heap) (s0 : Site) (code : Int)
    (m : Text) (wraps : List Site) (fuel : Nat) (hf : wraps.length + 1 ≤ fuel) :
    ∃ (h1 : Heap) (p : Ptr) (out : Text),
      build S h s0 code m wraps = some (h1, p) ∧
      returned_text (error_format fuel h1 (some p)) = some out ∧
      out = m ++ ("; at".toList ++ ((wraps.reverse ++ [s0]).map segment).flatten) ∧
      starts_with m out = true ∧ 1 ≤ occurrences m out ∧
      (occurrences m out = 1 ↔ m ≠ [] ∧ occurrences m (out.drop 1) = 0) := by
  obtain ⟨h1, p, hb, ht⟩ := built_format_text S h s0 code m wraps fuel hf
  have hs := starts_with_append m ("; at".toList ++ ((wraps.reverse ++ [s0]).map segment).flatten)
  have hne : m ++ ("; at".toList ++ ((wraps.reverse ++ [s0]).map segment).flatten) ≠ [] := by
    simp
  obtain ⟨h1le, hiff⟩ := occurrences_one_iff m _ hne hs
  exact ⟨h1, p, _, hb, by rw [ht, List.append_assoc], rfl, hs, h1le, hiff⟩

/-- C15 (amended) at a concrete input: the chain `func2` builds; its message occurs
once in the output. -/
theorem C15_witness :
    [site_func2].length + 1 ≤ 2 ∧
    (∃ (h1 : Heap) (p : Ptr) (out : Text),
      build 72 Heap.init site_func1 0 msg_func1 [site_func2] = some (h1, p) ∧
      returned_text (error_format 2 h1 (some p)) = some out ∧
      out = msg_func1
        ++ ("; at".toList ++ (([site_func2].reverse ++ [site_func1]).map segment).flatten) ∧
      starts_with msg_func1 out = true ∧ 1 ≤ occurrences msg_func1 out ∧
      (occurrences msg_func1 out = 1 ↔ msg_func1 ≠ [] ∧ occurrences msg_func1 (out.drop 1) = 0)) ∧
    occurrences msg_func1
      "something bad happened; at func2 (error.c:153); func1 (error.c:149);".toList = 1 :=
  ⟨by decide,
    C15_message_printed_once_at_start 72 Heap.init site_func1 0 msg_func1 [site_func2] 2
      (by decide),
    by decide⟩

/-! ## Size pass and fill pass -/

theorem required_length_eq (m : Text) (es : List error_t) :
    required_length m es = (chain_text m es).length := by
  cases es with
  | nil => rfl
  | cons e es =>
    simp [required_length, chain_text, rest_text, List.length_flatten, Function.comp_def]

theorem formatbuf_fill_any (h : Heap) (p : Ptr) (x : Ptr × error_t)
    (rest : List (Ptr × error_t)) (m : Text) (fuel : Nat) (b : List Cell)
    (hc : Chain h.nodes (some p) (x :: rest)) (hm : h.msg_text x.2.msg = some m)
    (hf : rest.length + 1 ≤ fuel)
    (hb : b.length = (chain_text m ((x :: rest).map Prod.snd)).length + 1) :
    error_formatbuf fuel h (some p) (some b)
        ((chain_text m ((x :: rest).map Prod.snd)).length + 1)
      = some (some ((chain_text m ((x :: rest).map Prod.snd)).map Cell.chr ++ [Cell.nul]),
          (chain_text m ((x :: rest).map Prod.snd)).length) := by
  have hac := chain_acyclic h.nodes p x rest hc
  cases fuel with
  | zero => simp at hf
  | succ fuel =>
    simp only [Chain] at hc
    obtain ⟨_, ⟨t, hn⟩, hr⟩ := hc
    have hT : (chain_text m ((x :: rest).map Prod.snd)).length
        = (fmt_first m x.2.funcname x.2.filename x.2.line).length
          + (rest_text (rest.map Prod.snd)).length := by
      simp [chain_text]
    generalize hF : fmt_first m x.2.funcname x.2.filename x.2.line = F at hT
    generalize hN : (chain_text m ((x :: rest).map Prod.snd)).length = n at hT hb
    have hfit := snprintf_fits b 0 (n + 1) F (by omega) (by omega)
    obtain ⟨post2, hp2, hrun⟩ := formatbuf_fill_rest h (some p) (n + 1) rest x.2.«from» fuel F
      (List.drop (F.length + 1) b) hr
      (fun y hy hyp => hac y hy (Option.some.inj hyp)) (by omega) (by simp; omega)
      (by simp; omega)
    have hnil : post2 = [] := by
      apply List.eq_nil_of_length_eq_zero
      simp at hp2
      omega
    subst hnil
    have hne : n + 1 ≠ 0 := by omega
    simp only [error_formatbuf, hne, if_false, error_formatbuf_loop, hn, Nat.zero_mul,
      Nat.not_lt_zero, if_true, hm, Nat.sub_zero, hF, hfit, List.take_zero, List.nil_append,
      Nat.zero_add]
    rw [hrun]
    have hct : chain_text m ((x :: rest).map Prod.snd) = F ++ rest_text (rest.map Prod.snd) := by
      simp [chain_text, hF]
    rw [hct, hT]

/-- C16: for every chain, the sizing pass `error_formatbuf(err, NULL, 0)` returns
the sum of the lengths of the segments, which is the length of the full text;
the fill pass into any buffer of exactly that length plus one succeeds (no
store outside the buffer), leaves the complete text followed by the zero byte
in it, so that the buffer reads back as the full text and keeps its length,
and returns the same value. -/
theorem C16_size_pass_matches_fill_pass (h : Heap) (p : Ptr) (x : Ptr × error_t)
    (rest : List (Ptr × error_t)) (m : Text) (fuel : Nat) (b : List Cell)
    (hc : Chain h.nodes (some p) (x :: rest)) (hm : h.msg_text x.2.msg = some m)
    (hf : rest.length + 1 ≤ fuel)
    (hb : b.length = required_length m ((x :: rest).map Prod.snd) + 1) :
    ∃ (sz : Nat) (b2 : List Cell),
      error_formatbuf fuel h (some p) none 0 = some (none, sz) ∧
      sz = required_length m ((x :: rest).map Prod.snd) ∧
      sz = (chain_text m ((x :: rest).map Prod.snd)).length ∧
      error_formatbuf fuel h (some p) (some b) (sz + 1) = some (some b2, sz) ∧
      b2 = (chain_text m ((x :: rest).map Prod.snd)).map Cell.chr ++ [Cell.nul] ∧
      cstr b2 = some (chain_text m ((x :: rest).map Prod.snd)) ∧
      b2.length = b.length := by
  have hreq := required_length_eq m ((x :: rest).map Prod.snd)
  rw [hreq] at hb
  refine ⟨_, _, formatbuf_size h p x rest m fuel hc hm hf, hreq.symm, rfl,
    formatbuf_fill_any h p x rest m fuel b hc hm hf hb, rfl, cstr_cells _ [], ?_⟩
  rw [hb]
  simp

/-- C16 at a concrete input: the two-node chain of `sample_heap` and a buffer of
indeterminate bytes. -/
theorem C16_witness :
    Chain sample_heap.nodes (some 1) [(1, sample_outer), (0, sample_root)] ∧
    sample_heap.msg_text sample_outer.msg = some msg_func1 ∧
    [(0, sample_root)].length + 1 ≤ 2 ∧
    (List.replicate 69 Cell.undef).length
      = required_length msg_func1 [sample_outer, sample_root] + 1 ∧
    ∃ (sz : Nat) (b2 : List Cell),
      error_formatbuf 2 sample_heap (some 1) none 0 = some (none, sz) ∧
      sz = required_length msg_func1 [sample_outer, sample_root] ∧
      sz = (chain_text msg_func1 [sample_outer, sample_root]).length ∧
      error_formatbuf 2 sample_heap (some 1) (some (List.replicate 69 Cell.undef)) (sz + 1)
        = some (some b2, sz) ∧
      b2 = (chain_text msg_func1 [sample_outer, sample_root]).map Cell.chr ++ [Cell.nul] ∧
      cstr b2 = some (chain_text msg_func1 [sample_outer, sample_root]) ∧
      b2.length = (List.replicate 69 Cell.undef).length :=
  ⟨⟨rfl, ⟨_, rfl⟩, rfl, ⟨_, rfl⟩, trivial⟩, by decide, by decide, by decide,
    C16_size_pass_matches_fill_pass sample_heap 1 (1, sample_outer) [(0, sample_root)]
      msg_func1 2 (List.replicate 69 Cell.undef) ⟨rfl, ⟨_, rfl⟩, rfl, ⟨_, rfl⟩, trivial⟩
      (by decide) (by decide) (by decide)⟩

theorem error_format_present (fuel : Nat) (h h2 : Heap) (err : Option Ptr) (r : Ptr)
    (hrun : error_format fuel h err = some (h2, some r)) :
    ∃ p, err = some p ∧ h.nodes p ≠ none := by
  cases err with
  | none =>
    simp only [error_format] at hrun
    have := congrArg Prod.snd (Option.some.inj hrun)
    exact absurd this (by simp)
  | some p =>
    refine ⟨p, rfl, ?_⟩
    intro hnone
    simp only [error_format] at hrun
    split at hrun
    · exact absurd hrun (by simp)
    · split at hrun
      · exact absurd hrun (by simp)
      · exact absurd hrun (by simp)
      · simp [hnone] at hrun

/-- C17: `error_format` on the absent value returns the absent text and the heap
as it was, counter included, for any fuel.  It returns a present text only for
a present node, and for a present node that heads a chain it does return a
present text, the formatted one. -/
theorem C17_format_of_noerror (h : Heap) (p : Ptr) (x : Ptr × error_t)
    (rest : List (Ptr × error_t)) (m : Text) (fuel : Nat)
    (hc : Chain h.nodes (some p) (x :: rest)) (hm : h.msg_text x.2.msg = some m)
    (hf : rest.length + 1 ≤ fuel) :
    (∀ (fuel0 : Nat) (h0 : Heap), error_format fuel0 h0 none = some (h0, none)) ∧
    (∀ (fuel0 : Nat) (h0 h2 : Heap) (err : Option Ptr) (r : Ptr),
      error_format fuel0 h0 err = some (h2, some r) →
      ∃ q, err = some q ∧ h0.nodes q ≠ none) ∧
    (∃ (h2 : Heap) (r : Ptr),
      error_format fuel h (some p) = some (h2, some r) ∧
      h2.buf_text r = some (chain_text m ((x :: rest).map Prod.snd))) := by
  refine ⟨fun _ _ => rfl, fun fuel0 h0 h2 err r hrun => error_format_present fuel0 h0 h2 err r hrun,
    ?_⟩
  obtain ⟨tail, _, hfmt⟩ := error_format_chain h p x rest m fuel hc hm hf
  exact ⟨_, h.next, hfmt, buf_text_store h h.next _ _ _ _⟩

/-- C17 at a concrete input: the two-node chain of `sample_heap`, and the absent
value on the same heap. -/
theorem C17_witness :
    Chain sample_heap.nodes (some 1) [(1, sample_outer), (0, sample_root)] ∧
    sample_heap.msg_text sample_outer.msg = some msg_func1 ∧
    [(0, sample_root)].length + 1 ≤ 2 ∧
    error_format 2 sample_heap none = some (sample_heap, none) ∧
    ∃ (h2 : Heap) (r : Ptr),
      error_format 2 sample_heap (some 1) = some (h2, some r) ∧
      h2.buf_text r = some (chain_text msg_func1 [sample_outer, sample_root]) :=
  ⟨⟨rfl, ⟨_, rfl⟩, rfl, ⟨_, rfl⟩, trivial⟩, by decide, by decide,
    (C17_format_of_noerror sample_heap 1 (1, sample_outer) [(0, sample_root)] msg_func1 2
      ⟨rfl, ⟨_, rfl⟩, rfl, ⟨_, rfl⟩, trivial⟩ (by decide) (by decide)).1 2 sample_heap,
    (C17_format_of_noerror sample_heap 1 (1, sample_outer) [(0, sample_root)] msg_func1 2
      ⟨rfl, ⟨_, rfl⟩, rfl, ⟨_, rfl⟩, trivial⟩ (by decide) (by decide)).2.2⟩

end ErrorC
